import Mathlib

/-!
# Verification of the `struct_flags` command-line binder

A shallow embedding of the `wav/struct_flags` Go repository (file
`src/flags.go`, which contains two editions of the library: the first
edition, "v1", lines 1-611, and the second edition, "v2", lines 612-1298).

Go strings are modelled as `List Char`, Go `int` as `Int`, the process
environment as an association list, `reflect` struct types as lists of
field descriptors indexed into a type environment, and `reflect` values
as a small inductive `GoValue`.  Functions that can panic or fail return
`Except`/explicit outcome types.  External collaborators (the Go `flag`
package, `strconv`, `os.Expand`) are modelled from their documented,
well-known semantics since the repository relies on them directly.
-/

/-- A Go string, modelled as its character list. -/
abbrev GoStr := List Char

/-- View a Lean string literal as a Go string. -/
def gs (s : String) : GoStr := s.data

/-- ASCII lowercasing of one character (`strings.ToLower`, restricted to the
ASCII range that all inputs in this development use). -/
def lowerChar (c : Char) : Char :=
  if 'A' ≤ c ∧ c ≤ 'Z' then Char.ofNat (c.toNat + 32) else c

/-- `strings.ToLower` on a Go string. -/
def toLowerStr (s : GoStr) : GoStr := s.map lowerChar

/-- `strings.Split(s, c)` for a one-character separator: always returns at
least one piece; `Split("", c) = [""]`. -/
def splitOnChar (c : Char) : GoStr → List GoStr
  | [] => [[]]
  | x :: xs =>
    if x = c then [] :: splitOnChar c xs
    else
      match splitOnChar c xs with
      | h :: t => (x :: h) :: t
      | [] => [[x]]

/-- Split a Go string at the first occurrence of `c`: returns the part
before it and, when `c` occurs, the part after it. -/
def breakFirst (c : Char) : GoStr → GoStr × Option GoStr
  | [] => ([], none)
  | x :: xs =>
    if x = c then ([], some xs)
    else
      let r := breakFirst c xs
      (x :: r.1, r.2)

/-- `strings.SplitN(s, c, 2)` for a one-character separator: one piece when
`c` does not occur, otherwise the prefix and the remainder. -/
def splitN2 (c : Char) (s : GoStr) : List GoStr :=
  match breakFirst c s with
  | (pre, none) => [pre]
  | (pre, some post) => [pre, post]

/-- `strings.Replace(s, "  ", " ", -1)`: left-to-right, non-overlapping
replacement of two spaces by one. -/
def replaceDoubleSpace : GoStr → GoStr
  | ' ' :: ' ' :: rest => ' ' :: replaceDoubleSpace rest
  | x :: rest => x :: replaceDoubleSpace rest
  | [] => []

/-- `strconv.ParseBool`: the exact set of accepted literals. -/
def parseBoolGo (s : GoStr) : Option Bool :=
  if s = gs "1" ∨ s = gs "t" ∨ s = gs "T" ∨ s = gs "TRUE" ∨ s = gs "true" ∨ s = gs "True" then
    some true
  else if s = gs "0" ∨ s = gs "f" ∨ s = gs "F" ∨ s = gs "FALSE" ∨ s = gs "false" ∨ s = gs "False" then
    some false
  else none

/-- Value of a run of digits in the given base, or `none` if the run is
empty or contains a character that is not a digit of that base. -/
def digitsToNat (base : Nat) : GoStr → Option Nat
  | [] => none
  | ds => go ds 0
where
  digitVal (c : Char) : Option Nat :=
    if '0' ≤ c ∧ c ≤ '9' then some (c.toNat - '0'.toNat)
    else if 'a' ≤ c ∧ c ≤ 'f' then some (c.toNat - 'a'.toNat + 10)
    else if 'A' ≤ c ∧ c ≤ 'F' then some (c.toNat - 'A'.toNat + 10)
    else none
  go : GoStr → Nat → Option Nat
    | [], acc => some acc
    | c :: cs, acc =>
      match digitVal c with
      | some d => if d < base then go cs (acc * base + d) else none
      | none => none

/-- `strconv.ParseInt(s, 10, 64)`: optional sign, decimal digits, 64-bit
range check.  (Underscore digit separators, which Go only accepts when the
requested base is 0, are rejected here, faithfully to base-10 parsing.) -/
def parseIntB10 (s : GoStr) : Option Int :=
  let (neg, digits) :=
    match s with
    | '-' :: rest => (true, rest)
    | '+' :: rest => (false, rest)
    | rest => (false, rest)
  match digitsToNat 10 digits with
  | none => none
  | some n =>
    if neg then
      if n ≤ 2 ^ 63 then some (-(n : Int)) else none
    else
      if n < 2 ^ 63 then some (n : Int) else none

/-- `strconv.ParseInt(s, 0, 64)` as used by the `flag` package's integer
values: base inferred from a `0x`/`0o`/`0b`/leading-`0` prefix.  (Underscore
digit separators are not modelled; no input in this development uses them.) -/
def parseIntB0 (s : GoStr) : Option Int :=
  let (neg, body) :=
    match s with
    | '-' :: rest => (true, rest)
    | '+' :: rest => (false, rest)
    | rest => (false, rest)
  let parsed : Option Nat :=
    match body with
    | '0' :: 'x' :: rest => digitsToNat 16 rest
    | '0' :: 'X' :: rest => digitsToNat 16 rest
    | '0' :: 'o' :: rest => digitsToNat 8 rest
    | '0' :: 'O' :: rest => digitsToNat 8 rest
    | '0' :: 'b' :: rest => digitsToNat 2 rest
    | '0' :: 'B' :: rest => digitsToNat 2 rest
    | ['0'] => some 0
    | '0' :: rest => digitsToNat 8 rest
    | rest => digitsToNat 10 rest
  match parsed with
  | none => none
  | some n =>
    if neg then
      if n ≤ 2 ^ 63 then some (-(n : Int)) else none
    else
      if n < 2 ^ 63 then some (n : Int) else none

/-- The process environment: an association list from names to values. -/
abbrev ProcEnv := List (GoStr × GoStr)

/-- `os.LookupEnv`. -/
def lookupEnv (env : ProcEnv) (name : GoStr) : Option GoStr :=
  match env.find? (fun e => e.1 = name) with
  | some e => some e.2
  | none => none

/-- `os.Setenv` (the successful case): overwrite an existing binding or
append a new one. -/
def setEnv (env : ProcEnv) (name value : GoStr) : ProcEnv :=
  match env with
  | [] => [(name, value)]
  | e :: rest => if e.1 = name then (name, value) :: rest else e :: setEnv rest name value

/-- `os.Expand`'s shell special variables: `*#$@!?` and single digits. -/
def isShellSpecialVar (c : Char) : Bool :=
  c = '*' ∨ c = '#' ∨ c = '$' ∨ c = '@' ∨ c = '!' ∨ c = '?' ∨ ('0' ≤ c ∧ c ≤ '9')

/-- `os.Expand`'s name characters: underscore and ASCII alphanumerics. -/
def isAlphaNumGo (c : Char) : Bool :=
  c = '_' ∨ ('0' ≤ c ∧ c ≤ '9') ∨ ('a' ≤ c ∧ c ≤ 'z') ∨ ('A' ≤ c ∧ c ≤ 'Z')

/-- `os.getShellName`: given the text after a `$`, return the variable name
and how many characters of the input it (plus any braces) consumed. -/
def getShellName (s : GoStr) : GoStr × Nat :=
  match s with
  | [] => ([], 0)
  | '{' :: rest =>
    match rest with
    | c :: '}' :: _ =>
      if isShellSpecialVar c then ([c], 3) else braceScan rest
    | _ => braceScan rest
  | c :: _ =>
    if isShellSpecialVar c then ([c], 1)
    else
      let name := s.takeWhile isAlphaNumGo
      (name, name.length)
where
  /-- Scan past `{` for the closing brace; mirrors the loop in `os.Expand`. -/
  braceScan (rest : GoStr) : GoStr × Nat :=
    match rest.findIdx? (· = '}') with
    | none => ([], 1)
    | some 0 => ([], 2)
    | some i => (rest.take i, i + 2)

/-- `os.Expand(s, mapping)`. -/
def expandGo (mapping : GoStr → GoStr) : GoStr → GoStr
  | [] => []
  | '$' :: rest =>
    if rest = [] then [ '$' ]
    else
      let (name, w) := getShellName rest
      (if name = [] ∧ w > 0 then []
       else if name = [] then [ '$' ]
       else mapping name) ++ expandGo mapping (rest.drop w)
  | c :: rest => c :: expandGo mapping rest
termination_by s => s.length
decreasing_by
  all_goals first
    | (simp [List.length_drop]; omega)
    | simp

/-- `os.ExpandEnv`: expand against the process environment, with missing
variables mapping to the empty string (`os.Getenv`). -/
def expandEnv (env : ProcEnv) (s : GoStr) : GoStr :=
  expandGo (fun n => (lookupEnv env n).getD []) s

/-! ## The reflection data model

A configuration record type is a list of field descriptors; nested record
types are referenced by index into a type environment `TypeEnv`, which also
serves as the type identity that the schema walk's cycle detection keys on
(Go keys its `seen` map by `reflect.Type`). -/

/-- The `reflect.Kind` of a struct field, as the schema walk distinguishes
them.  `strMap` records whether the map's key type is `string` (the walk
skips maps with non-string keys); `strct` is a nested record type, by index
into the type environment.  Every kind the walk ignores is `other`. -/
inductive GoKind where
  | str
  | bool
  | int
  | strMap (stringKey : Bool)
  | slice
  | strct (tidx : Nat)
  | other
deriving DecidableEq, Repr

/-- One struct field: its tag strings (`flag`, `usage`, `env`, `validate`)
and its kind. -/
structure GoField where
  flagTag : GoStr := []
  usageTag : GoStr := []
  envTag : GoStr := []
  validateTag : GoStr := []
  kind : GoKind := .other
deriving DecidableEq, Repr

/-- A record type: its fields in declaration order. -/
abbrev GoStruct := List GoField

/-- The type environment: record types by index. -/
abbrev TypeEnv := List GoStruct

/-- A `reflect.Value`, as far as the binder inspects one. -/
inductive GoValue where
  | vstr (s : GoStr)
  | vbool (b : Bool)
  | vint (n : Int)
  | vmap (entries : List (GoStr × GoStr))
  | vslice (xs : List GoStr)
  | vstruct (fields : List GoValue)
  | vother
deriving Repr

/-- Field `i` of a struct value (`reflect.Value.Field`). -/
def GoValue.fieldD (v : GoValue) (i : Nat) : GoValue :=
  match v with
  | .vstruct fs => fs.getD i .vother
  | _ => .vother

/-- `reflect.Value.String` on a string field. -/
def GoValue.asStr : GoValue → GoStr
  | .vstr s => s
  | _ => []

/-- `reflect.Value.Bool` on a bool field. -/
def GoValue.asBool : GoValue → Bool
  | .vbool b => b
  | _ => false

/-- `reflect.Value.Int` on an int field. -/
def GoValue.asInt : GoValue → Int
  | .vint n => n
  | _ => 0

/-- Overwrite the sub-value at a field path (models the `set` closures that
write through `reflect.Value.Field` chains). -/
def setPath (v : GoValue) (path : List Nat) (nv : GoValue) : GoValue :=
  match path, v with
  | [], _ => nv
  | i :: p, .vstruct fs => .vstruct (fs.set i (setPath (fs.getD i .vother) p nv))
  | _ :: _, w => w

/-- Read the sub-value at a field path. -/
def getPath (v : GoValue) (path : List Nat) : GoValue :=
  match path with
  | [] => v
  | i :: p => getPath (v.fieldD i) p

/-- The zero value of a record type (`reflect.New`), with fuel bounding the
nesting depth (enough fuel exists whenever the type is acyclic). -/
def zeroValue (tenv : TypeEnv) : Nat → Nat → GoValue
  | 0, _ => .vother
  | fuel + 1, tidx =>
    .vstruct ((tenv.getD tidx []).map fun fld =>
      match fld.kind with
      | .str => .vstr []
      | .bool => .vbool false
      | .int => .vint 0
      | .strMap _ => .vmap []
      | .slice => .vslice []
      | .strct t => zeroValue tenv fuel t
      | .other => .vother)

/-- The zero value of one field, by kind (the per-field view of
`zeroValue`). -/
def zeroField (tenv : TypeEnv) (fuel : Nat) : GoKind → GoValue
  | .str => .vstr []
  | .bool => .vbool false
  | .int => .vint 0
  | .strMap _ => .vmap []
  | .slice => .vslice []
  | .strct t => zeroValue tenv fuel t
  | .other => .vother

/-! ## Flag descriptors and the `flag`-package registry -/

/-- The current value of one registered flag, as the `flag` package holds it
between `Set` calls: single slots for string/bool/int (`fs.String` etc.),
and the accumulating `stringArray`/`stringMap` states for `fs.Var`. -/
inductive FVal where
  | str (s : GoStr)
  | bool (b : Bool)
  | int (n : Int)
  | arr (xs : List GoStr)
  | smap (entries : List (GoStr × GoStr))
deriving DecidableEq, Repr

/-- What `readFlagInfo` produces for an annotated field. -/
structure FlagInfoR where
  name : GoStr
  envTag : GoStr
  validateTag : GoStr
deriving DecidableEq, Repr

/-- `readFlagInfo`: split the `flag` tag on `,`; an empty first component
means the field carries no flag annotation.  (The caller passes the field
itself rather than a `(type, index)` pair; the tag accesses are the same.) -/
def readFlagInfo (fld : GoField) (pfx : GoStr) : Option FlagInfoR :=
  match splitOnChar ',' fld.flagTag with
  | [] => none
  | h :: _ => if h = [] then none else some ⟨pfx ++ h, fld.envTag, fld.validateTag⟩

/-- v2 `readPositionalArg`: strip surrounding `[`..`]` from a positional
parameter name, or return the empty string. -/
def readPositionalArg (arg : GoStr) : GoStr :=
  match arg with
  | '[' :: rest =>
    if arg.length > 2 ∧ rest.getLast? = some ']' then rest.dropLast else []
  | _ => []

/-- `flagInfo.readEnv` on a string slot: an environment value always
replaces the default. -/
def readEnvStr (penv : ProcEnv) (en : GoStr) (df : GoStr) : GoStr :=
  if en = [] then df
  else
    match lookupEnv penv en with
    | none => df
    | some v => v

/-- `flagInfo.readEnv` on a bool slot: an unparseable environment value is
silently ignored and the default stands. -/
def readEnvBool (penv : ProcEnv) (en : GoStr) (df : Bool) : Bool :=
  if en = [] then df
  else
    match lookupEnv penv en with
    | none => df
    | some v =>
      match parseBoolGo v with
      | some b => b
      | none => df

/-- `flagInfo.readEnv` on an int slot (`strconv.ParseInt(v, 10, 64)`). -/
def readEnvInt (penv : ProcEnv) (en : GoStr) (df : Int) : Int :=
  if en = [] then df
  else
    match lookupEnv penv en with
    | none => df
    | some v =>
      match parseIntB10 v with
      | some n => n
      | none => df

/-- `stringArray.Set`: split on `,` and append. -/
def stringArraySet (sa : List GoStr) (v : GoStr) : List GoStr :=
  sa ++ splitOnChar ',' v

/-- `stringMap.Set`: split on `,`, then each entry on its first `=` (a bare
key gets an empty value); pairs are appended in encounter order. -/
def stringMapSet (sm : List (GoStr × GoStr)) (v : GoStr) : List (GoStr × GoStr) :=
  sm ++ (splitOnChar ',' v).map fun e =>
    match splitN2 '=' e with
    | [k] => (k, [])
    | [k, w] => (k, w)
    | _ => (e, [])

/-- Insert into a Go map modelled as an association list: overwrite the
existing binding in place or append. -/
def insertOverwrite (m : List (GoStr × GoStr)) (k v : GoStr) : List (GoStr × GoStr) :=
  match m with
  | [] => [(k, v)]
  | e :: rest => if e.1 = k then (k, v) :: rest else e :: insertOverwrite rest k v

/-- The single final build pass of the map-field `set` closure:
`m := map[string]string{}; for _, e := range sm { m[e.key] = e.value }`. -/
def buildStringMap (entries : List (GoStr × GoStr)) : List (GoStr × GoStr) :=
  entries.foldl (fun m e => insertOverwrite m e.1 e.2) []

/-- Go map lookup on the association-list model. -/
def lookupMap (m : List (GoStr × GoStr)) (k : GoStr) : Option GoStr :=
  match m.find? (fun e => e.1 = k) with
  | some e => some e.2
  | none => none

/-- One registered flag descriptor: its dotted name, tags, the field path
its `set` closure writes to, and its initial (post-environment) value. -/
structure FlagReg where
  name : GoStr
  envTag : GoStr
  validateTag : GoStr
  path : List Nat
  init : FVal
deriving DecidableEq, Repr

/-- Register a flag: the `flag` package panics on a redefined name. -/
def registerReg (collected : List FlagReg) (reg : FlagReg) :
    Except GoStr (List FlagReg) :=
  if collected.any (fun r => r.name = reg.name) then .error reg.name
  else .ok (collected ++ [reg])

/-! ## The `flag`-package parse loop (`fs.Parse`) -/

/-- User-facing errors of `fs.Parse`. -/
inductive FlagParseErr where
  | badFlag (s : GoStr)
  | helpRequested
  | notDefined (name : GoStr)
  | badBoolValue (v : GoStr) (name : GoStr)
  | needsArg (name : GoStr)
  | badValue (v : GoStr) (name : GoStr)
deriving DecidableEq, Repr

/-- The mutable flag table during one `fs.Parse` call. -/
abbrev FlagSt := List (GoStr × FVal)

/-- Look a flag up by name. -/
def stLookup (st : FlagSt) (n : GoStr) : Option FVal :=
  match st.find? (fun e => e.1 = n) with
  | some e => some e.2
  | none => none

/-- Update a flag's current value. -/
def stSet (st : FlagSt) (n : GoStr) (v : FVal) : FlagSt :=
  match st with
  | [] => []
  | e :: rest => if e.1 = n then (n, v) :: rest else e :: stSet rest n v

/-- `Value.Set` for the non-bool flag kinds. -/
def setNonBool (fv : FVal) (nm v : GoStr) : Except FlagParseErr FVal :=
  match fv with
  | .str _ => .ok (.str v)
  | .int _ =>
    match parseIntB0 v with
    | some k => .ok (.int k)
    | none => .error (.badValue v nm)
  | .arr xs => .ok (.arr (stringArraySet xs v))
  | .smap es => .ok (.smap (stringMapSet es v))
  | .bool _ => .ok (.bool true)

/-- The `fs.Parse` loop (`parseOne` iterated): scans `-name=value` /
`-name value` tokens, stops at the first non-flag token or after `--`, and
returns the final flag table together with `fs.Args()`. -/
def parseArgsLoop (st : FlagSt) : List GoStr → Except FlagParseErr (FlagSt × List GoStr)
  | [] => .ok (st, [])
  | s :: rest =>
    if s.length < 2 ∨ s.head? ≠ some '-' then .ok (st, s :: rest)
    else
      let s1 := s.tail
      let stripped : GoStr × Bool :=
        match s1 with
        | '-' :: s2 => (s2, true)
        | _ => (s1, false)
      if stripped.2 ∧ stripped.1 = [] then .ok (st, rest)
      else
        match stripped.1 with
        | [] => .error (.badFlag s)
        | c :: _ =>
          if c = '-' ∨ c = '=' then .error (.badFlag s)
          else
            let (nm, hasVal) := breakFirst '=' stripped.1
            match stLookup st nm with
            | none =>
              if nm = gs "help" ∨ nm = gs "h" then .error .helpRequested
              else .error (.notDefined nm)
            | some (.bool _) =>
              match hasVal with
              | some v =>
                match parseBoolGo v with
                | some b => parseArgsLoop (stSet st nm (.bool b)) rest
                | none => .error (.badBoolValue v nm)
              | none => parseArgsLoop (stSet st nm (.bool true)) rest
            | some fv =>
              match hasVal with
              | some v =>
                match setNonBool fv nm v with
                | .error e => .error e
                | .ok fv' => parseArgsLoop (stSet st nm fv') rest
              | none =>
                match rest with
                | [] => .error (.needsArg nm)
                | v :: r =>
                  match setNonBool fv nm v with
                  | .error e => .error e
                  | .ok fv' => parseArgsLoop (stSet st nm fv') r

/-! ## The v1 schema walk (`collectStructFlags`, flags.go lines 445-514)

The walk is modelled with an explicit fuel parameter (Go's recursion depth
is bounded by the cycle check; fuel adequacy is proved below), an explicit
`seen` chain (Go's `seen` map holds exactly the ancestors of the current
call, since each call deletes its own type on exit), and an explicit field
path `base` standing for the `focus` pointer the `set` closures capture. -/

/-- Configuration-time fatal errors of the schema walk (all of them panics
in Go: the cycle panic in `collectStructFlags`, and the `flag` package's
"flag redefined" panic). `fuelOut` is the model's sentinel for exhausted
fuel and is proved unreachable for well-formed type environments. -/
inductive CollectErr where
  | fuelOut
  | cycle (tidx : Nat)
  | redefined (name : GoStr)
deriving DecidableEq, Repr

mutual

/-- v1 `collectStructFlags`: cycle check, then walk the fields. -/
def collectStructFlags (tenv : TypeEnv) (penv : ProcEnv) (fuel : Nat) (seen : List Nat)
    (collected : List FlagReg) (pfx : GoStr) (tidx : Nat) (dval : GoValue) (base : List Nat) :
    Except CollectErr (List FlagReg) :=
  match fuel with
  | 0 => .error .fuelOut
  | f + 1 =>
    if tidx ∈ seen then .error (.cycle tidx)
    else collectFields tenv penv f (tidx :: seen) (tenv.getD tidx []) 0 collected pfx dval base
termination_by (fuel, 0)

/-- The field loop of v1 `collectStructFlags`: one flag per annotated
primitive/list/map field, recursion into annotated nested records (with a
flag name of `-` meaning squash). -/
def collectFields (tenv : TypeEnv) (penv : ProcEnv) (fuel : Nat) (seen : List Nat)
    (flds : List GoField) (i : Nat) (collected : List FlagReg) (pfx : GoStr)
    (dval : GoValue) (base : List Nat) : Except CollectErr (List FlagReg) :=
  match flds with
  | [] => .ok collected
  | fld :: rest =>
    match readFlagInfo fld pfx with
    | none => collectFields tenv penv fuel seen rest (i + 1) collected pfx dval base
    | some info =>
      match fld.kind with
      | .str =>
        let df := readEnvStr penv info.envTag (dval.fieldD i).asStr
        match registerReg collected ⟨info.name, info.envTag, info.validateTag, base ++ [i], .str df⟩ with
        | .error n => .error (.redefined n)
        | .ok collected' => collectFields tenv penv fuel seen rest (i + 1) collected' pfx dval base
      | .bool =>
        let df := readEnvBool penv info.envTag (dval.fieldD i).asBool
        match registerReg collected ⟨info.name, info.envTag, info.validateTag, base ++ [i], .bool df⟩ with
        | .error n => .error (.redefined n)
        | .ok collected' => collectFields tenv penv fuel seen rest (i + 1) collected' pfx dval base
      | .int =>
        let df := readEnvInt penv info.envTag (dval.fieldD i).asInt
        match registerReg collected ⟨info.name, info.envTag, info.validateTag, base ++ [i], .int df⟩ with
        | .error n => .error (.redefined n)
        | .ok collected' => collectFields tenv penv fuel seen rest (i + 1) collected' pfx dval base
      | .strMap stringKey =>
        if stringKey then
          match registerReg collected ⟨info.name, info.envTag, info.validateTag, base ++ [i], .smap []⟩ with
          | .error n => .error (.redefined n)
          | .ok collected' => collectFields tenv penv fuel seen rest (i + 1) collected' pfx dval base
        else collectFields tenv penv fuel seen rest (i + 1) collected pfx dval base
      | .slice =>
        match registerReg collected ⟨info.name, info.envTag, info.validateTag, base ++ [i], .arr []⟩ with
        | .error n => .error (.redefined n)
        | .ok collected' => collectFields tenv penv fuel seen rest (i + 1) collected' pfx dval base
      | .strct t =>
        let pfx' := if info.name = gs "-" then [] else info.name ++ gs "."
        match collectStructFlags tenv penv fuel seen collected pfx' t (dval.fieldD i) (base ++ [i]) with
        | .error e => .error e
        | .ok collected' => collectFields tenv penv fuel seen rest (i + 1) collected' pfx dval base
      | .other => collectFields tenv penv fuel seen rest (i + 1) collected pfx dval base
termination_by (fuel, flds.length + 1)

end

/-! ## v1 `UnmarshalFlags` (flags.go lines 427-443, plus the fresh
`reflect.New` destination from `parseCommandFlags`) -/

/-- Errors of one unmarshal call: configuration-time panics versus user
parse errors. -/
inductive UnmarshalErr where
  | config (e : CollectErr)
  | parse (e : FlagParseErr)
deriving DecidableEq, Repr

/-- The initial flag table: each registered flag at its initial value. -/
def initState (regs : List FlagReg) : FlagSt :=
  regs.map fun r => (r.name, r.init)

/-- Materialize a flag's final value into the record field it binds:
string/bool/int slots directly, the list accumulator directly, and the map
accumulator through the single final `buildStringMap` pass. -/
def matFVal : FVal → GoValue
  | .str s => .vstr s
  | .bool b => .vbool b
  | .int n => .vint n
  | .arr xs => .vslice xs
  | .smap es => .vmap (buildStringMap es)

/-- Run the collected `set` closures over the destination, leaves-first
(`for i := len(flags) - 1; i >= 0; i--`). -/
def applyRegSets (regs : List FlagReg) (st : FlagSt) (z : GoValue) : GoValue :=
  regs.foldr (fun r acc => setPath acc r.path (matFVal ((stLookup st r.name).getD r.init))) z

/-- v1 `flagSet.UnmarshalFlags` applied to a fresh zero destination (as
`parseCommandFlags` does): walk the schema, parse the tokens, apply the
setters in reverse collection order, return the leftover tokens and the
populated record. -/
def unmarshalFlags (tenv : TypeEnv) (penv : ProcEnv) (tidx : Nat) (dval : GoValue)
    (args : List GoStr) : Except UnmarshalErr (List GoStr × GoValue) :=
  match collectStructFlags tenv penv (tenv.length + 1) [] [] [] tidx dval [] with
  | .error e => .error (.config e)
  | .ok regs =>
    match parseArgsLoop (initState regs) args with
    | .error e => .error (.parse e)
    | .ok (st, leftover) =>
      .ok (leftover, applyRegSets regs st (zeroValue tenv (tenv.length + 1) tidx))

/-! ## The v2 schema walk (`collectStructFlags`, flags.go lines 1117-1186)

Identical to the v1 walk except for the per-field guard: v2 additionally
skips every annotated field whose (prefixed) flag name is not of the
bracketed positional form `[..]`:
`if !ok || readPositionalArg(info.name) == "" { continue }`. -/

mutual

/-- v2 `collectStructFlags`: cycle check, then walk the fields. -/
def collectStructFlagsV2 (tenv : TypeEnv) (penv : ProcEnv) (fuel : Nat) (seen : List Nat)
    (collected : List FlagReg) (pfx : GoStr) (tidx : Nat) (dval : GoValue) (base : List Nat) :
    Except CollectErr (List FlagReg) :=
  match fuel with
  | 0 => .error .fuelOut
  | f + 1 =>
    if tidx ∈ seen then .error (.cycle tidx)
    else collectFieldsV2 tenv penv f (tidx :: seen) (tenv.getD tidx []) 0 collected pfx dval base
termination_by (fuel, 0)

/-- The field loop of v2 `collectStructFlags`. -/
def collectFieldsV2 (tenv : TypeEnv) (penv : ProcEnv) (fuel : Nat) (seen : List Nat)
    (flds : List GoField) (i : Nat) (collected : List FlagReg) (pfx : GoStr)
    (dval : GoValue) (base : List Nat) : Except CollectErr (List FlagReg) :=
  match flds with
  | [] => .ok collected
  | fld :: rest =>
    match readFlagInfo fld pfx with
    | none => collectFieldsV2 tenv penv fuel seen rest (i + 1) collected pfx dval base
    | some info =>
      if readPositionalArg info.name = [] then
        collectFieldsV2 tenv penv fuel seen rest (i + 1) collected pfx dval base
      else
        match fld.kind with
        | .str =>
          let df := readEnvStr penv info.envTag (dval.fieldD i).asStr
          match registerReg collected ⟨info.name, info.envTag, info.validateTag, base ++ [i], .str df⟩ with
          | .error n => .error (.redefined n)
          | .ok collected' => collectFieldsV2 tenv penv fuel seen rest (i + 1) collected' pfx dval base
        | .bool =>
          let df := readEnvBool penv info.envTag (dval.fieldD i).asBool
          match registerReg collected ⟨info.name, info.envTag, info.validateTag, base ++ [i], .bool df⟩ with
          | .error n => .error (.redefined n)
          | .ok collected' => collectFieldsV2 tenv penv fuel seen rest (i + 1) collected' pfx dval base
        | .int =>
          let df := readEnvInt penv info.envTag (dval.fieldD i).asInt
          match registerReg collected ⟨info.name, info.envTag, info.validateTag, base ++ [i], .int df⟩ with
          | .error n => .error (.redefined n)
          | .ok collected' => collectFieldsV2 tenv penv fuel seen rest (i + 1) collected' pfx dval base
        | .strMap stringKey =>
          if stringKey then
            match registerReg collected ⟨info.name, info.envTag, info.validateTag, base ++ [i], .smap []⟩ with
            | .error n => .error (.redefined n)
            | .ok collected' => collectFieldsV2 tenv penv fuel seen rest (i + 1) collected' pfx dval base
          else collectFieldsV2 tenv penv fuel seen rest (i + 1) collected pfx dval base
        | .slice =>
          match registerReg collected ⟨info.name, info.envTag, info.validateTag, base ++ [i], .arr []⟩ with
          | .error n => .error (.redefined n)
          | .ok collected' => collectFieldsV2 tenv penv fuel seen rest (i + 1) collected' pfx dval base
        | .strct t =>
          let pfx' := if info.name = gs "-" then [] else info.name ++ gs "."
          match collectStructFlagsV2 tenv penv fuel seen collected pfx' t (dval.fieldD i) (base ++ [i]) with
          | .error e => .error e
          | .ok collected' => collectFieldsV2 tenv penv fuel seen rest (i + 1) collected' pfx dval base
        | .other => collectFieldsV2 tenv penv fuel seen rest (i + 1) collected pfx dval base
termination_by (fuel, flds.length + 1)

end

/-- v2 `flagSet.UnmarshalFlags` applied to a fresh zero destination. -/
def unmarshalFlagsV2 (tenv : TypeEnv) (penv : ProcEnv) (tidx : Nat) (dval : GoValue)
    (args : List GoStr) : Except UnmarshalErr (List GoStr × GoValue) :=
  match collectStructFlagsV2 tenv penv (tenv.length + 1) [] [] [] tidx dval [] with
  | .error e => .error (.config e)
  | .ok regs =>
    match parseArgsLoop (initState regs) args with
    | .error e => .error (.parse e)
    | .ok (st, leftover) =>
      .ok (leftover, applyRegSets regs st (zeroValue tenv (tenv.length + 1) tidx))

/-! ## v2 positional binding (`fillPositionalArgs`, flags.go lines 1074-1115) -/

/-- One step of the inner field scan of `fillPositionalArgs`. -/
inductive PosStep where
  | boundOne (pos : Nat) (value : GoValue)
  | sliceDone (value : GoValue)
  | noMatch
deriving Repr

/-- The inner field scan: find a field whose positional name matches
`argName`; a string field binds one token (`pos++; continue Args`), a slice
field binds all remaining tokens and returns immediately; any other kind
falls out of the `switch` and the scan continues. -/
def fillPosField (args : List GoStr) (argName : GoStr) (pos : Nat) (value : GoValue) :
    List GoField → Nat → PosStep
  | [], _ => .noMatch
  | fld :: rest, i =>
    match readFlagInfo fld [] with
    | none => fillPosField args argName pos value rest (i + 1)
    | some info =>
      if readPositionalArg info.name ≠ argName then
        fillPosField args argName pos value rest (i + 1)
      else
        match fld.kind with
        | .str => .boundOne (pos + 1) (setPath value [i] (.vstr (args.getD pos [])))
        | .slice => .sliceDone (setPath value [i] (.vslice (args.drop pos)))
        | _ => fillPosField args argName pos value rest (i + 1)

/-- The outer loop of `fillPositionalArgs` over the declared positional
parameter names, stopping via `done()` when either the declared names or
the leftover tokens run out, and breaking when a name matches no field. -/
def fillPosLoop (flds : List GoField) (nPos : Nat) (args : List GoStr) :
    List GoStr → Nat → GoValue → GoValue × List GoStr
  | [], pos, value => (value, args.drop pos)
  | argName :: names, pos, value =>
    if pos + 1 > nPos ∨ pos + 1 > args.length then (value, args.drop pos)
    else
      match fillPosField args argName pos value flds 0 with
      | .boundOne pos' value' => fillPosLoop flds nPos args names pos' value'
      | .sliceDone value' => (value', [])
      | .noMatch => (value, args.drop pos)

/-- v2 `fillPositionalArgs` on a record destination. -/
def fillPositionalArgs (flds : List GoField) (posNames : List GoStr)
    (value : GoValue) (argsAfterFlags : List GoStr) : GoValue × List GoStr :=
  fillPosLoop flds posNames.length argsAfterFlags posNames 0 value

/-! ## v2 command names and the dispatch forest -/

/-- v2 `command.Name()`: the text before the first space of the declared
name, after collapsing double spaces. -/
def cmdLeafName (raw : GoStr) : GoStr :=
  (breakFirst ' ' (replaceDoubleSpace raw)).1

/-- v2 `command.PositionalArgs()`: every space-separated part after the
first must be a bracketed `[name]`; otherwise Go panics (`none` here). -/
def positionalArgsOf (raw : GoStr) : Option (List GoStr) :=
  go (splitOnChar ' ' (replaceDoubleSpace raw)).tail
where
  go : List GoStr → Option (List GoStr)
    | [] => some []
    | p :: rest =>
      let a := readPositionalArg p
      if a = [] then none
      else
        match go rest with
        | none => none
        | some l => some (a :: l)

/-- A node of the command forest: a leaf `Command` (identified by `id`,
with its declared name and its configuration record type and defaults) or
a `CommandGroup`.  The `usage` strings, the validation collaborator and
the `execute` callback body are out of scope and not carried. -/
inductive Cmd where
  | leaf (id : Nat) (rawName : GoStr) (tidx : Nat) (dval : GoValue)
  | group (name : GoStr) (children : List Cmd)

/-- `ICommand.Name()` of a forest node. -/
def cmdName : Cmd → GoStr
  | .leaf _ raw _ _ => cmdLeafName raw
  | .group n _ => n

/-- The data of a matched leaf command. -/
structure LeafData where
  id : Nat
  rawName : GoStr
  tidx : Nat
  dval : GoValue

/-- Result of the dispatch match loop. -/
inductive SelectRes where
  | leafSel (l : LeafData)
  | groupSel (children : List Cmd)
  | noneSel

/-- The match loop of `Commands.Run` (v2 lines 772-783, identical in v1
lines 199-210): scan the forest in declaration order; a matching leaf is
*remembered* (the `break` inside the type switch leaves only the switch, so
the scan continues and a later matching leaf overwrites it); a matching
group returns immediately. -/
def selectLoop (nm : GoStr) : List Cmd → Option LeafData → SelectRes
  | [], acc =>
    match acc with
    | some l => .leafSel l
    | none => .noneSel
  | c :: rest, acc =>
    if toLowerStr (cmdName c) = nm then
      match c with
      | .leaf id raw tidx dval => selectLoop nm rest (some ⟨id, raw, tidx, dval⟩)
      | .group _ ch => .groupSel ch
    else selectLoop nm rest acc

/-! ## v2 ArgFile expansion (`mergeArgsFileArgs`, flags.go lines 827-858) -/

/-- An argument file, as decoded from its JSON object. -/
structure ArgFile where
  command : List GoStr := []
  args : List GoStr := []
  env : List GoStr := []
deriving DecidableEq, Repr

/-- Failures of `mergeArgsFileArgs`: unreadable/unparseable file, a failed
`os.Setenv`, or the index-out-of-range panic on an `env` entry without
`=` (`kv[1]` on a one-element `SplitN` result). -/
inductive MergeErr where
  | readErr
  | setenvErr
  | panicOOB
deriving DecidableEq, Repr

/-- Outcome of applying the `env` entries of an argument file in order. -/
inductive EnvApplyRes where
  | envOk (env : ProcEnv)
  | envErr (env : ProcEnv)
  | envPanic (env : ProcEnv)
deriving DecidableEq, Repr

/-- Apply the `KEY=VALUE` entries left to right, expanding each value
against the current environment (so an entry can read a variable set by an
earlier entry); an entry without `=` makes `kv[1]` panic; `os.Setenv`
rejects an empty name. -/
def applyEnvEntries (env : ProcEnv) : List GoStr → EnvApplyRes
  | [] => .envOk env
  | e :: rest =>
    match splitN2 '=' e with
    | [k, v] =>
      if k = [] then .envErr env
      else applyEnvEntries (setEnv env k (expandEnv env v)) rest
    | _ => .envPanic env

/-- v2 `mergeArgsFileArgs`: read and decode the file (the model's `fsys`
covers both `ioutil.ReadFile` and `json.Unmarshal`), apply its environment
entries, then splice `argv[0..parentDepth] ++ command ++ expanded args ++
trailing` into a rewritten vector.  The caller wraps the returned `ArgFile`
into the context (`withArgFile`). -/
def mergeArgsFileArgs (fname : GoStr) (fsys : GoStr → Option ArgFile)
    (env : ProcEnv) (parents : List GoStr) (args : List GoStr) :
    ProcEnv × Except MergeErr (ArgFile × List GoStr) :=
  match fsys fname with
  | none => (env, .error .readErr)
  | some af =>
    match applyEnvEntries env af.env with
    | .envErr env' => (env', .error .setenvErr)
    | .envPanic env' => (env', .error .panicOOB)
    | .envOk env' =>
      let fileArgs := af.args.map (expandEnv env')
      let merged := args.take (parents.length + 1) ++ af.command ++ fileArgs
          ++ args.drop (parents.length + 2)
      (env', .ok (af, merged))

/-! ## v2 `Commands.Run` (flags.go lines 755-825) -/

/-- The dispatch context: the matched parent-group path and the loaded
argument file, both carried through `context.Context` in Go. -/
structure Ctx where
  parents : List GoStr := []
  argFile : Option ArgFile := none

/-- What one dispatch produces.  `executed` stands for reaching
`command.Execute` with the populated record and the remaining tokens (the
validation collaborator and the user callback are out of scope and taken
to succeed); `panicked` stands for any Go panic. -/
inductive Outcome where
  | usage
  | executed (id : Nat) (flags : GoValue) (remaining : List GoStr)
  | mergeFailed (e : MergeErr)
  | parseFailed (e : FlagParseErr)
  | panicked
deriving Repr

/-- The result of a dispatch: its outcome, the final process environment,
and how many argument files were expanded in the whole call chain. -/
structure RunResult where
  outcome : Outcome
  env : ProcEnv
  expansions : Nat
deriving Repr

/-- Size bound used for the termination of `run`: a matched group's child
forest is smaller than the forest containing it. -/
theorem selectLoop_groupSel_size (nm : GoStr) (cs : List Cmd) (acc : Option LeafData)
    (ch : List Cmd) (h : selectLoop nm cs acc = .groupSel ch) : sizeOf ch < sizeOf cs := by
  induction cs generalizing acc with
  | nil =>
    simp only [selectLoop] at h
    cases acc <;> simp_all
  | cons c rest ih =>
    simp only [selectLoop] at h
    by_cases hm : toLowerStr (cmdName c) = nm
    · simp only [hm, if_pos rfl] at h
      cases c with
      | leaf id raw tidx dval =>
        have := ih _ h
        simp only [List.cons.sizeOf_spec]
        omega
      | group n ch' =>
        cases h
        simp only [List.cons.sizeOf_spec, Cmd.group.sizeOf_spec]
        omega
    · simp only [if_neg hm] at h
      have := ih _ h
      simp only [List.cons.sizeOf_spec]
      omega

/-- v2 `Commands.Run`: usage on a too-short vector; one-shot argument-file
expansion guarded by `getArgFile(ctx) == nil`; otherwise the match loop,
recursing into a matched group or parsing-and-executing a matched leaf.
`expansions` counts how many argument files the whole chain expanded. -/
def run (tenv : TypeEnv) (fsys : GoStr → Option ArgFile) (cs : List Cmd)
    (env : ProcEnv) (ctx : Ctx) (args : List GoStr) : RunResult :=
  if args.length < ctx.parents.length + 2 then ⟨.usage, env, 0⟩
  else
    let current := toLowerStr (args.getD (ctx.parents.length + 1) [])
    if hg : current.head? = some '@' ∧ ctx.argFile = none then
      match mergeArgsFileArgs current.tail fsys env ctx.parents args with
      | (env', .error .panicOOB) => ⟨.panicked, env', 0⟩
      | (env', .error e) => ⟨.mergeFailed e, env', 0⟩
      | (env', .ok (af, merged)) =>
        let r := run tenv fsys cs env' { ctx with argFile := some af } merged
        { r with expansions := r.expansions + 1 }
    else
      match hs : selectLoop current cs none with
      | .noneSel => ⟨.usage, env, 0⟩
      | .groupSel ch =>
        run tenv fsys ch env { ctx with parents := ctx.parents ++ [current] } args
      | .leafSel l =>
        if cmdLeafName l.rawName = [] then ⟨.usage, env, 0⟩
        else
          match positionalArgsOf l.rawName with
          | none => ⟨.panicked, env, 0⟩
          | some posNames =>
            match unmarshalFlagsV2 tenv env l.tidx l.dval (args.drop (ctx.parents.length + 2)) with
            | .error (.config _) => ⟨.panicked, env, 0⟩
            | .error (.parse e) => ⟨.parseFailed e, env, 0⟩
            | .ok (remaining0, v) =>
              let fp := fillPositionalArgs (tenv.getD l.tidx []) posNames v remaining0
              ⟨.executed l.id fp.1 fp.2, env, 0⟩
termination_by ((if ctx.argFile = none then 1 else 0), sizeOf cs)
decreasing_by
  · simp only [hg.2]
    exact Prod.Lex.left _ _ (by simp)
  · exact Prod.Lex.right _ (selectLoop_groupSel_size _ _ _ _ hs)

/-! ## Canonical walk output and the per-field resolution function

`walkRegs` is the accumulator-free description of the descriptor list the
v1 walk produces (proved below to coincide with `collectStructFlags` on
success), and `resolveStruct` states the per-field resolution that one
parse with no tokens performs: annotated string/bool/int fields get their
(environment-overridden) defaults, annotated list and map fields are reset
to empty, annotated nested records recurse, and everything else stays at
its zero value. -/

/-- Apply a descriptor list's `set` closures at their initial values,
leaves-first. -/
def applyInit (regs : List FlagReg) (z : GoValue) : GoValue :=
  regs.foldr (fun r acc => setPath acc r.path (matFVal r.init)) z

/-- Re-root a descriptor under a longer field path. -/
def shiftReg (base : List Nat) (r : FlagReg) : FlagReg :=
  ⟨r.name, r.envTag, r.validateTag, base ++ r.path, r.init⟩

mutual

/-- The descriptor list of the v1 walk, without the accumulator and the
cycle/redefinition checks. -/
def walkRegs (tenv : TypeEnv) (penv : ProcEnv) : Nat → GoStr → Nat → GoValue → List Nat → List FlagReg
  | 0, _, _, _, _ => []
  | f + 1, pfx, tidx, dval, base => walkFieldsRegs tenv penv f (tenv.getD tidx []) 0 pfx dval base
termination_by fuel => (fuel, 0)

/-- Per-field blocks of `walkRegs`, in declaration order. -/
def walkFieldsRegs (tenv : TypeEnv) (penv : ProcEnv) (fuel : Nat) :
    List GoField → Nat → GoStr → GoValue → List Nat → List FlagReg
  | [], _, _, _, _ => []
  | fld :: rest, i, pfx, dval, base =>
    (match readFlagInfo fld pfx with
     | none => []
     | some info =>
       match fld.kind with
       | .str => [⟨info.name, info.envTag, info.validateTag, base ++ [i],
           .str (readEnvStr penv info.envTag (dval.fieldD i).asStr)⟩]
       | .bool => [⟨info.name, info.envTag, info.validateTag, base ++ [i],
           .bool (readEnvBool penv info.envTag (dval.fieldD i).asBool)⟩]
       | .int => [⟨info.name, info.envTag, info.validateTag, base ++ [i],
           .int (readEnvInt penv info.envTag (dval.fieldD i).asInt)⟩]
       | .strMap stringKey =>
         if stringKey then [⟨info.name, info.envTag, info.validateTag, base ++ [i], .smap []⟩]
         else []
       | .slice => [⟨info.name, info.envTag, info.validateTag, base ++ [i], .arr []⟩]
       | .strct t =>
         let pfx' := if info.name = gs "-" then [] else info.name ++ gs "."
         walkRegs tenv penv fuel pfx' t (dval.fieldD i) (base ++ [i])
       | .other => [])
    ++ walkFieldsRegs tenv penv fuel rest (i + 1) pfx dval base
termination_by flds => (fuel, flds.length + 1)

end

/-- The value one no-token parse leaves in field `i` of kind `fld.kind`,
given the field's current (zero) value `cur`. -/
def fieldResolveVal (tenv : TypeEnv) (penv : ProcEnv) (fuel : Nat) (pfx : GoStr)
    (dval : GoValue) (i : Nat) (fld : GoField) (cur : GoValue) : GoValue :=
  match readFlagInfo fld pfx with
  | none => cur
  | some info =>
    match fld.kind with
    | .str => .vstr (readEnvStr penv info.envTag (dval.fieldD i).asStr)
    | .bool => .vbool (readEnvBool penv info.envTag (dval.fieldD i).asBool)
    | .int => .vint (readEnvInt penv info.envTag (dval.fieldD i).asInt)
    | .strMap stringKey => if stringKey then .vmap [] else cur
    | .slice => .vslice []
    | .strct t =>
      let pfx' := if info.name = gs "-" then [] else info.name ++ gs "."
      applyInit (walkRegs tenv penv fuel pfx' t (dval.fieldD i) []) cur
    | .other => cur

/-- Resolve the fields from index `i` on (in the `foldr` application order:
later fields first), leaving the rest of `fs` untouched. -/
def resolveFields (tenv : TypeEnv) (penv : ProcEnv) (fuel : Nat) (pfx : GoStr) (dval : GoValue) :
    List GoField → Nat → List GoValue → List GoValue
  | [], _, fs => fs
  | fld :: rest, i, fs =>
    let fs' := resolveFields tenv penv fuel pfx dval rest (i + 1) fs
    fs'.set i (fieldResolveVal tenv penv fuel pfx dval i fld (fs'.getD i .vother))

/-- The resolved record after a parse with no flag tokens: annotated
string/bool/int fields carry the caller defaults overridden by any present
and parseable environment variable; annotated list-of-string and
string-map fields are reset to empty regardless of their defaults;
annotated nested records recurse; fields without a flag annotation (and
maps without string keys, and unsupported kinds) keep their zero values. -/
def resolveStruct (tenv : TypeEnv) (penv : ProcEnv) : Nat → Nat → GoValue → GoValue
  | 0, _, _ => .vother
  | f + 1, tidx, dval =>
    .vstruct ((tenv.getD tidx []).enum.map fun p =>
      match readFlagInfo p.2 [] with
      | none => zeroField tenv f p.2.kind
      | some _ =>
        match p.2.kind with
        | .str => .vstr (readEnvStr penv p.2.envTag (dval.fieldD p.1).asStr)
        | .bool => .vbool (readEnvBool penv p.2.envTag (dval.fieldD p.1).asBool)
        | .int => .vint (readEnvInt penv p.2.envTag (dval.fieldD p.1).asInt)
        | .strMap _ => .vmap []
        | .slice => .vslice []
        | .strct t => resolveStruct tenv penv f t (dval.fieldD p.1)
        | .other => .vother)
termination_by f => (f, 0)
decreasing_by exact Prod.Lex.left _ _ (Nat.lt_succ_self _)

/-! ## Reachability along annotated nested fields (for the cycle claim) -/

/-- One annotated nested-record step: type `a` has a field carrying a flag
annotation whose kind is the nested record type `b` (the fields the walk
recurses into). -/
def StepAnn (tenv : TypeEnv) (a b : Nat) : Prop :=
  ∃ fld ∈ tenv.getD a [], (readFlagInfo fld []).isSome ∧ fld.kind = .strct b

/-- Observers for dispatch outcomes. -/
def executedId : Outcome → Option Nat
  | .executed i _ _ => some i
  | _ => none

/-- The leaves of a forest level whose (lowered) name matches, in
declaration order. -/
def matchingLeaves (nm : GoStr) (cs : List Cmd) : List LeafData :=
  cs.filterMap fun c =>
    match c with
    | .leaf id raw tidx dval =>
      if toLowerStr (cmdLeafName raw) = nm then some ⟨id, raw, tidx, dval⟩ else none
    | .group _ _ => none

/-- No group at this forest level matches the (lowered) name. -/
def noGroupMatch (nm : GoStr) (cs : List Cmd) : Prop :=
  ∀ n ch, Cmd.group n ch ∈ cs → toLowerStr n ≠ nm

/-! ## Lemmas: basic utilities -/

/-- Setting a list position to its own current value is the identity. -/
theorem list_set_getD_self {α : Type} (l : List α) (i : Nat) (d : α) :
    l.set i (l.getD i d) = l := by
  induction l generalizing i with
  | nil => simp
  | cons x xs ih =>
    cases i with
    | zero => simp [List.getD]
    | succ j => simp [List.getD] at ih ⊢; exact ih j

/-- Successful registration appends the descriptor and certifies its name
fresh. -/
theorem registerReg_ok_iff (collected : List FlagReg) (reg : FlagReg) (collected' : List FlagReg)
    (h : registerReg collected reg = .ok collected') :
    collected' = collected ++ [reg] ∧ reg.name ∉ collected.map FlagReg.name := by
  unfold registerReg at h
  split at h
  · cases h
  · next hany =>
    cases h
    refine ⟨rfl, ?_⟩
    simp only [List.any_eq_true, not_exists, not_and] at hany
    simp only [List.mem_map, not_exists, not_and]
    intro r hr
    have := hany r hr
    simp at this
    exact fun he => this (by rw [he])

/-- Appending a fresh name keeps the name list duplicate-free. -/
theorem nodup_names_append (collected : List FlagReg) (reg : FlagReg)
    (h1 : (collected.map FlagReg.name).Nodup) (h2 : reg.name ∉ collected.map FlagReg.name) :
    (((collected ++ [reg]).map FlagReg.name)).Nodup := by
  simp only [List.map_append, List.map_cons, List.map_nil]
  simp [List.nodup_append, h1, h2]

/-! ## The v1 walk produces exactly the canonical descriptor list

On success, `collectStructFlags` returns its accumulator followed by
`walkRegs`, and keeps the registered names duplicate-free (the spec's
no-two-descriptors-share-a-name invariant, enforced by the `flag`
package's redefinition panic). -/

theorem collectFields_walk (tenv : TypeEnv) (penv : ProcEnv) :
    ∀ fuel seen flds i collected pfx dval base out,
      collectFields tenv penv fuel seen flds i collected pfx dval base = .ok out →
        out = collected ++ walkFieldsRegs tenv penv fuel flds i pfx dval base ∧
        ((collected.map FlagReg.name).Nodup → (out.map FlagReg.name).Nodup) := by
  refine collectFields.induct tenv penv
    (fun fuel seen collected pfx tidx dval base =>
      ∀ out, collectStructFlags tenv penv fuel seen collected pfx tidx dval base = .ok out →
        out = collected ++ walkRegs tenv penv fuel pfx tidx dval base ∧
        ((collected.map FlagReg.name).Nodup → (out.map FlagReg.name).Nodup))
    (fun fuel seen flds i collected pfx dval base =>
      ∀ out, collectFields tenv penv fuel seen flds i collected pfx dval base = .ok out →
        out = collected ++ walkFieldsRegs tenv penv fuel flds i pfx dval base ∧
        ((collected.map FlagReg.name).Nodup → (out.map FlagReg.name).Nodup))
    ?_ ?_ ?_ ?_ ?_ ?_ ?_ ?_ ?_ ?_ ?_ ?_ ?_ ?_ ?_ ?_ ?_ ?_ ?_
  · intro seen collected pfx tidx dval base out h
    simp [collectStructFlags] at h
  · intro seen collected pfx tidx dval base f hmem out h
    simp [collectStructFlags, hmem] at h
  · intro seen collected pfx tidx dval base f hmem ih out h
    simp only [collectStructFlags, if_neg hmem] at h
    obtain ⟨h1, h2⟩ := ih out h
    exact ⟨by rw [h1]; simp [walkRegs], h2⟩
  · intro fuel seen i collected pfx dval base out h
    simp only [collectFields, Except.ok.injEq] at h
    subst h
    exact ⟨by simp [walkFieldsRegs], fun hn => hn⟩
  · intro fuel seen i collected pfx dval base fld rest hri ih out h
    simp only [collectFields, hri] at h
    obtain ⟨h1, h2⟩ := ih out h
    exact ⟨by rw [h1]; simp [walkFieldsRegs, hri], h2⟩
  · intro fuel seen i collected pfx dval base fld rest info hri hkind df n hreg out h
    have hdf : df = readEnvStr penv info.envTag (dval.fieldD i).asStr := rfl
    rw [hdf] at hreg
    simp only [collectFields, hri, hkind, hreg] at h
    simp at h
  · intro fuel seen i collected pfx dval base fld rest info hri hkind df collected' hreg ih out h
    have hdf : df = readEnvStr penv info.envTag (dval.fieldD i).asStr := rfl
    rw [hdf] at hreg
    simp only [collectFields, hri, hkind, hreg] at h
    obtain ⟨heq, hfresh⟩ := registerReg_ok_iff _ _ _ hreg
    obtain ⟨h1, h2⟩ := ih out h
    subst heq
    refine ⟨?_, fun hn => h2 (nodup_names_append _ _ hn hfresh)⟩
    rw [h1]
    simp [walkFieldsRegs, hri, hkind, List.append_assoc]
  · intro fuel seen i collected pfx dval base fld rest info hri hkind df n hreg out h
    have hdf : df = readEnvBool penv info.envTag (dval.fieldD i).asBool := rfl
    rw [hdf] at hreg
    simp only [collectFields, hri, hkind, hreg] at h
    simp at h
  · intro fuel seen i collected pfx dval base fld rest info hri hkind df collected' hreg ih out h
    have hdf : df = readEnvBool penv info.envTag (dval.fieldD i).asBool := rfl
    rw [hdf] at hreg
    simp only [collectFields, hri, hkind, hreg] at h
    obtain ⟨heq, hfresh⟩ := registerReg_ok_iff _ _ _ hreg
    obtain ⟨h1, h2⟩ := ih out h
    subst heq
    refine ⟨?_, fun hn => h2 (nodup_names_append _ _ hn hfresh)⟩
    rw [h1]
    simp [walkFieldsRegs, hri, hkind, List.append_assoc]
  · intro fuel seen i collected pfx dval base fld rest info hri hkind df n hreg out h
    have hdf : df = readEnvInt penv info.envTag (dval.fieldD i).asInt := rfl
    rw [hdf] at hreg
    simp only [collectFields, hri, hkind, hreg] at h
    simp at h
  · intro fuel seen i collected pfx dval base fld rest info hri hkind df collected' hreg ih out h
    have hdf : df = readEnvInt penv info.envTag (dval.fieldD i).asInt := rfl
    rw [hdf] at hreg
    simp only [collectFields, hri, hkind, hreg] at h
    obtain ⟨heq, hfresh⟩ := registerReg_ok_iff _ _ _ hreg
    obtain ⟨h1, h2⟩ := ih out h
    subst heq
    refine ⟨?_, fun hn => h2 (nodup_names_append _ _ hn hfresh)⟩
    rw [h1]
    simp [walkFieldsRegs, hri, hkind, List.append_assoc]
  · intro fuel seen i collected pfx dval base fld rest info hri n hreg hkind out h
    simp only [collectFields, hri, hkind, hreg] at h
    simp at h
  · intro fuel seen i collected pfx dval base fld rest info hri collected' hreg hkind ih out h
    simp only [collectFields, hri, hkind, hreg] at h
    obtain ⟨heq, hfresh⟩ := registerReg_ok_iff _ _ _ hreg
    obtain ⟨h1, h2⟩ := ih out h
    subst heq
    refine ⟨?_, fun hn => h2 (nodup_names_append _ _ hn hfresh)⟩
    rw [h1]
    simp [walkFieldsRegs, hri, hkind, List.append_assoc]
  · intro fuel seen i collected pfx dval base fld rest info hri sk hkind hsk ih out h
    have hskf : sk = false := by revert hsk; cases sk <;> simp
    subst hskf
    simp only [collectFields, hri, hkind] at h
    obtain ⟨h1, h2⟩ := ih out h
    exact ⟨by rw [h1]; simp [walkFieldsRegs, hri, hkind], h2⟩
  · intro fuel seen i collected pfx dval base fld rest info hri hkind n hreg out h
    simp only [collectFields, hri, hkind, hreg] at h
    simp at h
  · intro fuel seen i collected pfx dval base fld rest info hri hkind collected' hreg ih out h
    simp only [collectFields, hri, hkind, hreg] at h
    obtain ⟨heq, hfresh⟩ := registerReg_ok_iff _ _ _ hreg
    obtain ⟨h1, h2⟩ := ih out h
    subst heq
    refine ⟨?_, fun hn => h2 (nodup_names_append _ _ hn hfresh)⟩
    rw [h1]
    simp [walkFieldsRegs, hri, hkind, List.append_assoc]
  · intro fuel seen i collected pfx dval base fld rest info hri a hkind pfx' e herr ih1 out h
    have hp : pfx' = (if info.name = gs "-" then [] else info.name ++ gs ".") := rfl
    rw [hp] at herr
    simp only [collectFields, hri, hkind, herr] at h
    simp at h
  · intro fuel seen i collected pfx dval base fld rest info hri a hkind pfx' collected' hok ih1 ih2 out h
    have hp : pfx' = (if info.name = gs "-" then [] else info.name ++ gs ".") := rfl
    rw [hp] at hok
    simp only [collectFields, hri, hkind, hok] at h
    obtain ⟨h1, h2⟩ := ih2 out h
    obtain ⟨h3, h4⟩ := ih1 collected' hok
    refine ⟨?_, fun hn => h2 (h4 hn)⟩
    rw [h1, h3]
    simp [walkFieldsRegs, hri, hkind, List.append_assoc]
    rw [hp]
  · intro fuel seen i collected pfx dval base fld rest info hri hkind ih out h
    simp only [collectFields, hri, hkind] at h
    obtain ⟨h1, h2⟩ := ih out h
    exact ⟨by rw [h1]; simp [walkFieldsRegs, hri, hkind], h2⟩

/-- Success-shape of the v1 walk itself. -/
theorem collectStructFlags_walk (tenv : TypeEnv) (penv : ProcEnv)
    (fuel : Nat) (seen : List Nat) (collected : List FlagReg) (pfx : GoStr) (tidx : Nat)
    (dval : GoValue) (base : List Nat) (out : List FlagReg)
    (h : collectStructFlags tenv penv fuel seen collected pfx tidx dval base = .ok out) :
    out = collected ++ walkRegs tenv penv fuel pfx tidx dval base ∧
    ((collected.map FlagReg.name).Nodup → (out.map FlagReg.name).Nodup) := by
  cases fuel with
  | zero => simp [collectStructFlags] at h
  | succ f =>
    by_cases hmem : tidx ∈ seen
    · simp [collectStructFlags, hmem] at h
    · simp only [collectStructFlags, if_neg hmem] at h
      obtain ⟨h1, h2⟩ := collectFields_walk tenv penv f (tidx :: seen) (tenv.getD tidx []) 0
        collected pfx dval base out h
      exact ⟨by rw [h1]; simp [walkRegs], h2⟩

/-- Re-rooting composes. -/
theorem shiftReg_comp (b : List Nat) (i : Nat) (r : FlagReg) :
    shiftReg b (shiftReg [i] r) = shiftReg (b ++ [i]) r := by
  simp [shiftReg]

/-- The walk's `base` argument only re-roots every descriptor path. -/
theorem walkFieldsRegs_shift (tenv : TypeEnv) (penv : ProcEnv) :
    ∀ fuel flds i pfx dval base,
      walkFieldsRegs tenv penv fuel flds i pfx dval base
        = (walkFieldsRegs tenv penv fuel flds i pfx dval []).map (shiftReg base) := by
  have main : ∀ fuel flds i pfx dval (base : List Nat), ∀ b,
      walkFieldsRegs tenv penv fuel flds i pfx dval b
        = (walkFieldsRegs tenv penv fuel flds i pfx dval []).map (shiftReg b) := by
    refine walkFieldsRegs.induct tenv penv
      (fun fuel pfx tidx dval _ => ∀ b, walkRegs tenv penv fuel pfx tidx dval b
        = (walkRegs tenv penv fuel pfx tidx dval []).map (shiftReg b))
      (fun fuel flds i pfx dval _ => ∀ b, walkFieldsRegs tenv penv fuel flds i pfx dval b
        = (walkFieldsRegs tenv penv fuel flds i pfx dval []).map (shiftReg b))
      ?_ ?_ ?_ ?_
    · intro pfx tidx dval base b
      simp [walkRegs]
    · intro f pfx tidx dval base ih b
      simp only [walkRegs]
      exact ih b
    · intro fuel i pfx dval base b
      simp [walkFieldsRegs]
    · intro fuel fld rest i pfx dval base ih1 ih2 b
      cases hri : readFlagInfo fld pfx with
      | none => simp [walkFieldsRegs, hri, ih2 b]
      | some info =>
        cases hk : fld.kind with
        | str => simp [walkFieldsRegs, hri, hk, ih2 b, shiftReg]
        | bool => simp [walkFieldsRegs, hri, hk, ih2 b, shiftReg]
        | int => simp [walkFieldsRegs, hri, hk, ih2 b, shiftReg]
        | strMap sk => cases sk <;> simp [walkFieldsRegs, hri, hk, ih2 b, shiftReg]
        | slice => simp [walkFieldsRegs, hri, hk, ih2 b, shiftReg]
        | other => simp [walkFieldsRegs, hri, hk, ih2 b]
        | strct t =>
          have H := ih1 info t
          simp only [dite_eq_ite] at H
          simp only [walkFieldsRegs, hri, hk, List.nil_append]
          rw [H (b ++ [i]), H [i], ih2 b]
          simp [List.map_append, List.map_map, Function.comp_def, shiftReg_comp]
  intro fuel flds i pfx dval base
  exact main fuel flds i pfx dval base base

/-- `walkRegs` version of the re-rooting lemma. -/
theorem walkRegs_shift (tenv : TypeEnv) (penv : ProcEnv) (fuel : Nat) (pfx : GoStr)
    (tidx : Nat) (dval : GoValue) (base : List Nat) :
    walkRegs tenv penv fuel pfx tidx dval base
      = (walkRegs tenv penv fuel pfx tidx dval []).map (shiftReg base) := by
  cases fuel with
  | zero => simp [walkRegs]
  | succ f => simp only [walkRegs]; exact walkFieldsRegs_shift tenv penv f _ 0 pfx dval base

/-! ## From descriptor application to per-field resolution -/

/-- `getD` after `set` at the same (in-range) position. -/
theorem list_getD_set_self {α : Type} (l : List α) (i : Nat) (a d : α) (h : i < l.length) :
    (l.set i a).getD i d = a := by
  induction l generalizing i with
  | nil => simp at h
  | cons x xs ih =>
    cases i with
    | zero => simp [List.getD]
    | succ j => simpa [List.getD] using ih j (by simpa using h)

/-- `getD` after `set` at a different position. -/
theorem list_getD_set_ne {α : Type} (l : List α) (i j : Nat) (a d : α) (h : i ≠ j) :
    (l.set i a).getD j d = l.getD j d := by
  induction l generalizing i j with
  | nil => simp
  | cons x xs ih =>
    cases i with
    | zero => cases j with
      | zero => exact absurd rfl h
      | succ k => simp [List.getD]
    | succ i' => cases j with
      | zero => simp [List.getD]
      | succ k => simpa [List.getD] using ih i' k (fun he => h (by rw [he]))

/-- Lists agree when their lengths and `getD` views agree. -/
theorem list_eq_of_getD {α : Type} (d : α) :
    ∀ (l₁ l₂ : List α), l₁.length = l₂.length →
      (∀ j, j < l₁.length → l₁.getD j d = l₂.getD j d) → l₁ = l₂ := by
  intro l₁
  induction l₁ with
  | nil => intro l₂ h _; cases l₂ <;> simp_all
  | cons x xs ih =>
    intro l₂ hlen hpt
    cases l₂ with
    | nil => simp at hlen
    | cons y ys =>
      have h0 := hpt 0 (by simp)
      simp [List.getD] at h0
      subst h0
      have := ih ys (by simpa using hlen) (fun j hj => by
        simpa [List.getD] using hpt (j + 1) (by simpa using Nat.succ_lt_succ hj))
      rw [this]

/-- `getD` through `map` over `enumFrom`. -/
theorem enumFrom_map_getD {α β : Type} (g : Nat × α → β) (d : β) (dF : α) :
    ∀ (l : List α) (n j : Nat), j < l.length →
      ((l.enumFrom n).map g).getD j d = g (n + j, l.getD j dF) := by
  intro l
  induction l with
  | nil => intro n j hj; simp at hj
  | cons x xs ih =>
    intro n j hj
    cases j with
    | zero => simp [List.enumFrom, List.getD]
    | succ k =>
      have := ih (n + 1) k (by simpa using hj)
      simpa [List.enumFrom, List.getD, Nat.add_assoc, Nat.add_comm 1 k] using this

/-- Applying a block of descriptors re-rooted under field `i` only rewrites
field `i`, by the block applied to that field's current value. -/
theorem applyInit_shift_field (regs : List FlagReg) :
    ∀ (i : Nat) (fs : List GoValue), i < fs.length →
      applyInit (regs.map (shiftReg [i])) (.vstruct fs)
        = .vstruct (fs.set i (applyInit regs (fs.getD i .vother))) := by
  induction regs with
  | nil =>
    intro i fs hi
    simp only [applyInit, List.map_nil, List.foldr_nil]
    exact (congrArg GoValue.vstruct (list_set_getD_self fs i .vother)).symm
  | cons r rest ih =>
    intro i fs hi
    simp only [applyInit, List.map_cons, List.foldr_cons]
    have ihh := ih i fs hi
    simp only [applyInit] at ihh
    rw [ihh]
    simp only [shiftReg, List.singleton_append, setPath]
    rw [List.set_set, list_getD_set_self fs i _ _ hi]
    simp

/-- `applyInit` distributes over concatenated descriptor lists. -/
theorem applyInit_append (a b : List FlagReg) (z : GoValue) :
    applyInit (a ++ b) z = applyInit a (applyInit b z) := by
  simp [applyInit, List.foldr_append]

/-- `resolveFields` keeps the field count. -/
theorem resolveFields_length (tenv : TypeEnv) (penv : ProcEnv) (fuel : Nat) (pfx : GoStr)
    (dval : GoValue) :
    ∀ (flds : List GoField) (i : Nat) (fs : List GoValue),
      (resolveFields tenv penv fuel pfx dval flds i fs).length = fs.length := by
  intro flds
  induction flds with
  | nil => intro i fs; simp [resolveFields]
  | cons fld rest ih => intro i fs; simp [resolveFields, ih]

/-- `resolveFields` leaves positions below `i` untouched. -/
theorem resolveFields_getD_lt (tenv : TypeEnv) (penv : ProcEnv) (fuel : Nat) (pfx : GoStr)
    (dval : GoValue) :
    ∀ (flds : List GoField) (i j : Nat) (fs : List GoValue), j < i →
      (resolveFields tenv penv fuel pfx dval flds i fs).getD j .vother = fs.getD j .vother := by
  intro flds
  induction flds with
  | nil => intro i j fs _; simp [resolveFields]
  | cons fld rest ih =>
    intro i j fs hj
    simp only [resolveFields]
    rw [list_getD_set_ne _ _ _ _ _ (by omega)]
    exact ih (i + 1) j fs (by omega)

/-- Core step lemma: applying the walk's descriptor blocks for the fields
from index `i` on rewrites exactly those fields, each by
`fieldResolveVal`. -/
theorem applyInit_walkFields (tenv : TypeEnv) (penv : ProcEnv) (fuel : Nat) :
    ∀ (flds : List GoField) (i : Nat) (fs : List GoValue) (pfx : GoStr) (dval : GoValue),
      fs.length = i + flds.length →
      applyInit (walkFieldsRegs tenv penv fuel flds i pfx dval []) (.vstruct fs)
        = .vstruct (resolveFields tenv penv fuel pfx dval flds i fs) := by
  intro flds
  induction flds with
  | nil => intro i fs pfx dval _; simp [walkFieldsRegs, applyInit, resolveFields]
  | cons fld rest ih =>
    intro i fs pfx dval hlen
    have hres : fs.length = (i + 1) + rest.length := by simp at hlen ⊢; omega
    have hlt : i < fs.length := by simp at hlen; omega
    have hlt' : i < (resolveFields tenv penv fuel pfx dval rest (i + 1) fs).length := by
      rw [resolveFields_length]; exact hlt
    have hgd : (resolveFields tenv penv fuel pfx dval rest (i + 1) fs).getD i .vother
        = fs.getD i .vother := resolveFields_getD_lt tenv penv fuel pfx dval rest (i + 1) i fs (by omega)
    cases hri : readFlagInfo fld pfx with
    | none =>
      simp only [walkFieldsRegs, hri, List.nil_append]
      rw [ih (i + 1) fs pfx dval hres]
      simp only [resolveFields, fieldResolveVal, hri]
      rw [list_set_getD_self]
    | some info =>
      cases hk : fld.kind with
      | str =>
        simp only [walkFieldsRegs, hri, hk]
        rw [applyInit_append, ih (i + 1) fs pfx dval hres]
        simp [applyInit, setPath, resolveFields, fieldResolveVal, hri, hk, matFVal]
      | bool =>
        simp only [walkFieldsRegs, hri, hk]
        rw [applyInit_append, ih (i + 1) fs pfx dval hres]
        simp [applyInit, setPath, resolveFields, fieldResolveVal, hri, hk, matFVal]
      | int =>
        simp only [walkFieldsRegs, hri, hk]
        rw [applyInit_append, ih (i + 1) fs pfx dval hres]
        simp [applyInit, setPath, resolveFields, fieldResolveVal, hri, hk, matFVal]
      | strMap sk =>
        cases sk with
        | true =>
          simp only [walkFieldsRegs, hri, hk]
          rw [applyInit_append, ih (i + 1) fs pfx dval hres]
          simp [applyInit, setPath, resolveFields, fieldResolveVal, hri, hk, matFVal, buildStringMap]
        | false =>
          have hw : walkFieldsRegs tenv penv fuel (fld :: rest) i pfx dval []
              = walkFieldsRegs tenv penv fuel rest (i + 1) pfx dval [] := by
            simp [walkFieldsRegs, hri, hk]
          rw [hw, ih (i + 1) fs pfx dval hres]
          simp only [resolveFields, fieldResolveVal, hri, hk]
          simp only [Bool.false_eq_true, if_false]
          exact congrArg GoValue.vstruct (list_set_getD_self _ i .vother).symm
      | slice =>
        simp only [walkFieldsRegs, hri, hk]
        rw [applyInit_append, ih (i + 1) fs pfx dval hres]
        simp [applyInit, setPath, resolveFields, fieldResolveVal, hri, hk, matFVal]
      | strct t =>
        simp only [walkFieldsRegs, hri, hk]
        rw [applyInit_append, ih (i + 1) fs pfx dval hres]
        rw [walkRegs_shift tenv penv fuel _ t (dval.fieldD i) ([] ++ [i])]
        simp only [List.nil_append]
        rw [applyInit_shift_field _ i _ hlt']
        simp only [resolveFields, fieldResolveVal, hri, hk]
      | other =>
        have hw : walkFieldsRegs tenv penv fuel (fld :: rest) i pfx dval []
            = walkFieldsRegs tenv penv fuel rest (i + 1) pfx dval [] := by
          simp [walkFieldsRegs, hri, hk]
        rw [hw, ih (i + 1) fs pfx dval hres]
        simp only [resolveFields, fieldResolveVal, hri, hk]
        exact congrArg GoValue.vstruct (list_set_getD_self _ i .vother).symm

/-- `getD` through `map`. -/
theorem list_map_getD {α β : Type} (f : α → β) (d : β) (dA : α) :
    ∀ (l : List α) (j : Nat), j < l.length → (l.map f).getD j d = f (l.getD j dA) := by
  intro l
  induction l with
  | nil => intro j hj; simp at hj
  | cons x xs ih =>
    intro j hj
    cases j with
    | zero => simp [List.getD]
    | succ k => simpa [List.getD] using ih k (by simpa using hj)

/-- Whether a field carries a flag annotation does not depend on the
prefix. -/
theorem readFlagInfo_none_iff (fld : GoField) (pfx : GoStr) :
    readFlagInfo fld pfx = none ↔ readFlagInfo fld [] = none := by
  unfold readFlagInfo
  cases splitOnChar ',' fld.flagTag with
  | nil => simp
  | cons h t => by_cases hh : h = [] <;> simp [hh]

/-- The environment tag of a flag descriptor is the field's `env` tag. -/
theorem readFlagInfo_envTag (fld : GoField) (pfx : GoStr) (info : FlagInfoR)
    (h : readFlagInfo fld pfx = some info) : info.envTag = fld.envTag := by
  unfold readFlagInfo at h
  cases hsp : splitOnChar ',' fld.flagTag with
  | nil => rw [hsp] at h; cases h
  | cons hd t =>
    rw [hsp] at h
    by_cases hh : hd = []
    · simp [hh] at h
    · simp [hh] at h
      rw [← h]

/-- Pointwise view of `resolveFields`. -/
theorem resolveFields_getD (tenv : TypeEnv) (penv : ProcEnv) (fuel : Nat) (pfx : GoStr)
    (dval : GoValue) :
    ∀ (flds : List GoField) (i j : Nat) (fs : List GoValue) (dF : GoField),
      j < flds.length → i + flds.length ≤ fs.length →
      (resolveFields tenv penv fuel pfx dval flds i fs).getD (i + j) .vother
        = fieldResolveVal tenv penv fuel pfx dval (i + j) (flds.getD j dF) (fs.getD (i + j) .vother) := by
  intro flds
  induction flds with
  | nil => intro i j fs dF hj _; simp at hj
  | cons fld rest ih =>
    intro i j fs dF hj hlen
    simp only [resolveFields]
    cases j with
    | zero =>
      simp only [Nat.add_zero]
      rw [list_getD_set_self _ i _ _ (by rw [resolveFields_length]; simp at hlen; omega)]
      rw [resolveFields_getD_lt tenv penv fuel pfx dval rest (i + 1) i fs (by omega)]
      simp [List.getD]
    | succ k =>
      rw [list_getD_set_ne _ i (i + (k + 1)) _ _ (by omega)]
      have hik := ih (i + 1) k fs dF (by simpa using hj) (by simp at hlen; omega)
      rw [show i + (k + 1) = (i + 1) + k by omega]
      rw [hik]
      simp [List.getD]

/-- The inline zero of `zeroValue` is `zeroField`. -/
theorem zeroValue_field (tenv : TypeEnv) (f : Nat) (fld : GoField) :
    (match fld.kind with
      | GoKind.str => GoValue.vstr []
      | GoKind.bool => GoValue.vbool false
      | GoKind.int => GoValue.vint 0
      | GoKind.strMap _ => GoValue.vmap []
      | GoKind.slice => GoValue.vslice []
      | GoKind.strct t => zeroValue tenv f t
      | GoKind.other => GoValue.vother) = zeroField tenv f fld.kind := by
  cases fld.kind <;> rfl

/-- Main resolution theorem: applying the canonical walk's descriptors to
the fresh zero record produces exactly `resolveStruct`. -/
theorem applyInit_walk_resolve (tenv : TypeEnv) (penv : ProcEnv) :
    ∀ (fuel tidx : Nat) (dval : GoValue) (pfx : GoStr),
      applyInit (walkRegs tenv penv fuel pfx tidx dval []) (zeroValue tenv fuel tidx)
        = resolveStruct tenv penv fuel tidx dval := by
  intro fuel
  induction fuel with
  | zero => intro tidx dval pfx; simp [walkRegs, applyInit, zeroValue, resolveStruct]
  | succ f ihf =>
    intro tidx dval pfx
    simp only [walkRegs, zeroValue, resolveStruct]
    rw [applyInit_walkFields tenv penv f (tenv.getD tidx []) 0 _ pfx dval (by simp)]
    congr 1
    apply list_eq_of_getD .vother
    · rw [resolveFields_length]
      simp [List.enum_length]
    · intro j hj
      rw [resolveFields_length, List.length_map] at hj
      have h0 := resolveFields_getD tenv penv f pfx dval (tenv.getD tidx []) 0 j
        ((tenv.getD tidx []).map fun fld =>
          match fld.kind with
          | GoKind.str => GoValue.vstr []
          | GoKind.bool => GoValue.vbool false
          | GoKind.int => GoValue.vint 0
          | GoKind.strMap _ => GoValue.vmap []
          | GoKind.slice => GoValue.vslice []
          | GoKind.strct t => zeroValue tenv f t
          | GoKind.other => GoValue.vother) ({} : GoField) hj (by simp)
      simp only [Nat.zero_add] at h0
      rw [h0]
      rw [list_map_getD _ _ ({} : GoField) _ j hj]
      rw [zeroValue_field]
      rw [show (tenv.getD tidx []).enum = (tenv.getD tidx []).enumFrom 0 from rfl]
      rw [enumFrom_map_getD _ _ ({} : GoField) _ 0 j hj]
      simp only [Nat.zero_add]
      -- per-field equation
      set fld := (tenv.getD tidx []).getD j ({} : GoField) with hfld
      cases hri0 : readFlagInfo fld [] with
      | none =>
        have hriP : readFlagInfo fld pfx = none := (readFlagInfo_none_iff fld pfx).mpr hri0
        simp [fieldResolveVal, hriP, hri0]
      | some info0 =>
        have hriP : ¬ readFlagInfo fld pfx = none := by
          rw [readFlagInfo_none_iff]
          simp [hri0]
        cases hriPP : readFlagInfo fld pfx with
        | none => exact absurd hriPP hriP
        | some info =>
          have henv : info.envTag = fld.envTag := readFlagInfo_envTag fld pfx info hriPP
          have henv0 : info0.envTag = fld.envTag := readFlagInfo_envTag fld [] info0 hri0
          cases hk : fld.kind with
          | str => simp [fieldResolveVal, hriPP, hri0, hk, henv, henv0]
          | bool => simp [fieldResolveVal, hriPP, hri0, hk, henv, henv0]
          | int => simp [fieldResolveVal, hriPP, hri0, hk, henv, henv0]
          | strMap sk => cases sk <;> simp [fieldResolveVal, hriPP, hri0, hk, zeroField]
          | slice => simp [fieldResolveVal, hriPP, hri0, hk]
          | other => simp [fieldResolveVal, hriPP, hri0, hk, zeroField]
          | strct t =>
            simp only [fieldResolveVal, hriPP, hri0, hk, zeroField]
            exact ihf t (dval.fieldD j) _

/-- With duplicate-free names, looking a descriptor's name up in the
initial flag table yields its own initial value. -/
theorem stLookup_initState (regs : List FlagReg) (hn : (regs.map FlagReg.name).Nodup) :
    ∀ r ∈ regs, stLookup (initState regs) r.name = some r.init := by
  induction regs with
  | nil => intro r hr; cases hr
  | cons x xs ih =>
    intro r hr
    simp only [List.map_cons, List.nodup_cons] at hn
    cases hr with
    | head => simp [initState, stLookup]
    | tail _ hmem =>
      have hne : x.name ≠ r.name := by
        intro he
        exact hn.1 (he ▸ List.mem_map_of_mem FlagReg.name hmem)
      simp only [initState, stLookup, List.map_cons, List.find?]
      rw [show (decide (x.name = r.name)) = false by simpa using hne]
      exact ih hn.2 r hmem

/-- Folding the setters over a fixed table in which every descriptor reads
back its initial value is folding the initial values. -/
theorem foldr_setters_ext (st : FlagSt) :
    ∀ (regs : List FlagReg), (∀ r ∈ regs, stLookup st r.name = some r.init) →
      ∀ z, List.foldr (fun r acc => setPath acc r.path (matFVal ((stLookup st r.name).getD r.init))) z regs
        = List.foldr (fun r acc => setPath acc r.path (matFVal r.init)) z regs := by
  intro regs
  induction regs with
  | nil => intro _ z; rfl
  | cons x xs ih =>
    intro hpt z
    simp only [List.foldr_cons]
    rw [hpt x (by simp), ih (fun r hr => hpt r (List.mem_cons_of_mem x hr)) z]
    rfl

/-- With no tokens parsed, applying the setters from the untouched flag
table is applying every descriptor's initial value. -/
theorem applyRegSets_initState (regs : List FlagReg) (hn : (regs.map FlagReg.name).Nodup)
    (z : GoValue) : applyRegSets regs (initState regs) z = applyInit regs z := by
  unfold applyRegSets applyInit
  exact foldr_setters_ext (initState regs) regs (stLookup_initState regs hn) z

/-- A v1 parse with no tokens resolves every field per `resolveStruct`:
annotated primitives to their (environment-overridden) defaults, annotated
lists and maps to empty, everything else to zero. -/
theorem unmarshalFlags_no_tokens (tenv : TypeEnv) (penv : ProcEnv) (tidx : Nat)
    (dval : GoValue) (regs : List FlagReg)
    (h : collectStructFlags tenv penv (tenv.length + 1) [] [] [] tidx dval [] = .ok regs) :
    unmarshalFlags tenv penv tidx dval []
      = .ok ([], resolveStruct tenv penv (tenv.length + 1) tidx dval) := by
  obtain ⟨h1, h2⟩ := collectStructFlags_walk tenv penv (tenv.length + 1) [] [] [] tidx dval [] regs h
  simp only [List.nil_append] at h1
  have hn := h2 (by simp)
  unfold unmarshalFlags
  rw [h]
  dsimp only
  rw [show parseArgsLoop (initState regs) [] = .ok (initState regs, []) from rfl]
  dsimp only
  rw [applyRegSets_initState regs hn, h1, applyInit_walk_resolve]

/-- Well-formedness of a type environment: every nested-record reference is
in range. -/
def WFTypeEnv (tenv : TypeEnv) : Prop :=
  ∀ s ∈ tenv, ∀ fld ∈ s, ∀ t, fld.kind = .strct t → t < tenv.length

/-- A duplicate-free list of indices below `n` has at most `n` members. -/
theorem nodup_bounded_length (seen : List Nat) (n : Nat) (hn : seen.Nodup)
    (hb : ∀ j ∈ seen, j < n) : seen.length ≤ n := by
  classical
  have hsub : seen.toFinset ⊆ Finset.range n := by
    intro j hj
    simp only [List.mem_toFinset] at hj
    simpa using hb j hj
  have := Finset.card_le_card hsub
  rwa [List.toFinset_card_of_nodup hn, Finset.card_range] at this

/-- Fuel adequacy: with fuel `|tenv| + 1 - |seen|` available, the walk never
runs out of fuel on a well-formed type environment — the dynamic `seen`
check bounds the recursion depth, so the walk always terminates. -/
theorem collectFields_no_fuelOut (tenv : TypeEnv) (penv : ProcEnv) (hwf : WFTypeEnv tenv) :
    ∀ fuel seen flds i collected pfx dval base,
      seen.Nodup → (∀ j ∈ seen, j < tenv.length) →
      (∀ fld ∈ flds, ∀ t, fld.kind = .strct t → t < tenv.length) →
      tenv.length + 1 ≤ fuel + seen.length →
      collectFields tenv penv fuel seen flds i collected pfx dval base ≠ .error .fuelOut := by
  refine collectFields.induct tenv penv
    (fun fuel seen collected pfx tidx dval base =>
      seen.Nodup → (∀ j ∈ seen, j < tenv.length) → tidx < tenv.length →
      tenv.length + 1 ≤ fuel + seen.length →
      collectStructFlags tenv penv fuel seen collected pfx tidx dval base ≠ .error .fuelOut)
    (fun fuel seen flds i collected pfx dval base =>
      seen.Nodup → (∀ j ∈ seen, j < tenv.length) →
      (∀ fld ∈ flds, ∀ t, fld.kind = .strct t → t < tenv.length) →
      tenv.length + 1 ≤ fuel + seen.length →
      collectFields tenv penv fuel seen flds i collected pfx dval base ≠ .error .fuelOut)
    ?_ ?_ ?_ ?_ ?_ ?_ ?_ ?_ ?_ ?_ ?_ ?_ ?_ ?_ ?_ ?_ ?_ ?_ ?_
  · intro seen collected pfx tidx dval base hnd hb htx hle
    have := nodup_bounded_length seen tenv.length hnd hb
    omega
  · intro seen collected pfx tidx dval base f hmem hnd hb htx hle
    simp [collectStructFlags, hmem]
  · intro seen collected pfx tidx dval base f hmem ih hnd hb htx hle
    simp only [collectStructFlags, if_neg hmem]
    refine ih (by simp [hnd, hmem]) ?_ ?_ (by simp; omega)
    · intro j hj
      simp only [List.mem_cons] at hj
      cases hj with
      | inl he => exact he ▸ htx
      | inr hm => exact hb j hm
    · intro fld hfld t ht
      have hmem2 : tenv.getD tidx [] ∈ tenv := by
        rw [List.getD_eq_getElem?_getD, List.getElem?_eq_getElem htx]
        simp
      exact hwf _ hmem2 fld hfld t ht
  · intro fuel seen i collected pfx dval base hnd hb hflds hle
    simp [collectFields]
  · intro fuel seen i collected pfx dval base fld rest hri ih hnd hb hflds hle
    simp only [collectFields, hri]
    exact ih hnd hb (fun f hf => hflds f (List.mem_cons_of_mem fld hf)) hle
  · intro fuel seen i collected pfx dval base fld rest info hri hkind df n hreg hnd hb hflds hle
    have hdf : df = readEnvStr penv info.envTag (dval.fieldD i).asStr := rfl
    rw [hdf] at hreg
    simp [collectFields, hri, hkind, hreg]
  · intro fuel seen i collected pfx dval base fld rest info hri hkind df collected' hreg ih hnd hb hflds hle
    have hdf : df = readEnvStr penv info.envTag (dval.fieldD i).asStr := rfl
    rw [hdf] at hreg
    simp only [collectFields, hri, hkind, hreg]
    exact ih hnd hb (fun f hf => hflds f (List.mem_cons_of_mem fld hf)) hle
  · intro fuel seen i collected pfx dval base fld rest info hri hkind df n hreg hnd hb hflds hle
    have hdf : df = readEnvBool penv info.envTag (dval.fieldD i).asBool := rfl
    rw [hdf] at hreg
    simp [collectFields, hri, hkind, hreg]
  · intro fuel seen i collected pfx dval base fld rest info hri hkind df collected' hreg ih hnd hb hflds hle
    have hdf : df = readEnvBool penv info.envTag (dval.fieldD i).asBool := rfl
    rw [hdf] at hreg
    simp only [collectFields, hri, hkind, hreg]
    exact ih hnd hb (fun f hf => hflds f (List.mem_cons_of_mem fld hf)) hle
  · intro fuel seen i collected pfx dval base fld rest info hri hkind df n hreg hnd hb hflds hle
    have hdf : df = readEnvInt penv info.envTag (dval.fieldD i).asInt := rfl
    rw [hdf] at hreg
    simp [collectFields, hri, hkind, hreg]
  · intro fuel seen i collected pfx dval base fld rest info hri hkind df collected' hreg ih hnd hb hflds hle
    have hdf : df = readEnvInt penv info.envTag (dval.fieldD i).asInt := rfl
    rw [hdf] at hreg
    simp only [collectFields, hri, hkind, hreg]
    exact ih hnd hb (fun f hf => hflds f (List.mem_cons_of_mem fld hf)) hle
  · intro fuel seen i collected pfx dval base fld rest info hri n hreg hkind hnd hb hflds hle
    simp [collectFields, hri, hkind, hreg]
  · intro fuel seen i collected pfx dval base fld rest info hri collected' hreg hkind ih hnd hb hflds hle
    simp only [collectFields, hri, hkind, hreg]
    exact ih hnd hb (fun f hf => hflds f (List.mem_cons_of_mem fld hf)) hle
  · intro fuel seen i collected pfx dval base fld rest info hri sk hkind hsk ih hnd hb hflds hle
    have hskf : sk = false := by revert hsk; cases sk <;> simp
    subst hskf
    simp only [collectFields, hri, hkind]
    exact ih hnd hb (fun f hf => hflds f (List.mem_cons_of_mem fld hf)) hle
  · intro fuel seen i collected pfx dval base fld rest info hri hkind n hreg hnd hb hflds hle
    simp [collectFields, hri, hkind, hreg]
  · intro fuel seen i collected pfx dval base fld rest info hri hkind collected' hreg ih hnd hb hflds hle
    simp only [collectFields, hri, hkind, hreg]
    exact ih hnd hb (fun f hf => hflds f (List.mem_cons_of_mem fld hf)) hle
  · intro fuel seen i collected pfx dval base fld rest info hri a hkind pfx' e herr ih1 hnd hb hflds hle
    have hp : pfx' = (if info.name = gs "-" then [] else info.name ++ gs ".") := rfl
    rw [hp] at herr
    have hta : a < tenv.length := hflds fld (by simp) a hkind
    have hne := ih1 hnd hb hta hle
    rw [hp] at hne
    simp only [collectFields, hri, hkind, herr]
    intro hcontra
    simp only [Except.error.injEq] at hcontra
    subst hcontra
    exact hne herr
  · intro fuel seen i collected pfx dval base fld rest info hri a hkind pfx' collected' hok ih1 ih2 hnd hb hflds hle
    have hp : pfx' = (if info.name = gs "-" then [] else info.name ++ gs ".") := rfl
    rw [hp] at hok
    simp only [collectFields, hri, hkind, hok]
    exact ih2 hnd hb (fun f hf => hflds f (List.mem_cons_of_mem fld hf)) hle
  · intro fuel seen i collected pfx dval base fld rest info hri hkind ih hnd hb hflds hle
    simp only [collectFields, hri, hkind]
    exact ih hnd hb (fun f hf => hflds f (List.mem_cons_of_mem fld hf)) hle

/-! ## Cycle detection: the walk terminates and rejects cyclic schemas -/

/-- Top-level fuel adequacy: one `UnmarshalFlags` walk never exhausts its
fuel on a well-formed type environment — the walk always terminates. -/
theorem collect_terminates (tenv : TypeEnv) (penv : ProcEnv) (tidx : Nat) (dval : GoValue)
    (hwf : WFTypeEnv tenv) (htx : tidx < tenv.length) :
    collectStructFlags tenv penv (tenv.length + 1) [] [] [] tidx dval [] ≠ .error .fuelOut := by
  simp only [collectStructFlags, List.mem_nil_iff, if_false]
  refine collectFields_no_fuelOut tenv penv hwf tenv.length [tidx] _ 0 [] [] dval []
    (by simp) (by simpa using htx) ?_ (by simp)
  intro fld hfld t ht
  have hmem2 : tenv.getD tidx [] ∈ tenv := by
    rw [List.getD_eq_getElem?_getD, List.getElem?_eq_getElem htx]
    simp
  exact hwf _ hmem2 fld hfld t ht

/-- If the field loop succeeds, then every nested-record call it made for
an annotated nested field succeeded as well (with the same fuel and
`seen` chain). -/
theorem collectFields_ok_child (tenv : TypeEnv) (penv : ProcEnv) :
    ∀ fuel seen flds i collected pfx dval base,
      (∀ out, collectFields tenv penv fuel seen flds i collected pfx dval base = .ok out →
        ∀ t, (∃ fld ∈ flds, (readFlagInfo fld []).isSome ∧ fld.kind = .strct t) →
        ∃ c2 p2 d2 b2 o2, collectStructFlags tenv penv fuel seen c2 p2 t d2 b2 = .ok o2) := by
  refine collectFields.induct tenv penv
    (fun _ _ _ _ _ _ _ => True)
    (fun fuel seen flds i collected pfx dval base =>
      ∀ out, collectFields tenv penv fuel seen flds i collected pfx dval base = .ok out →
        ∀ t, (∃ fld ∈ flds, (readFlagInfo fld []).isSome ∧ fld.kind = .strct t) →
        ∃ c2 p2 d2 b2 o2, collectStructFlags tenv penv fuel seen c2 p2 t d2 b2 = .ok o2)
    ?_ ?_ ?_ ?_ ?_ ?_ ?_ ?_ ?_ ?_ ?_ ?_ ?_ ?_ ?_ ?_ ?_ ?_ ?_
  · intro _ _ _ _ _ _; trivial
  · intro _ _ _ _ _ _ _ _; trivial
  · intro _ _ _ _ _ _ _ _ _; trivial
  · intro fuel seen i collected pfx dval base out h t ⟨fld, hf, _⟩
    cases hf
  · intro fuel seen i collected pfx dval base fld rest hri ih out h t hw
    simp only [collectFields, hri] at h
    obtain ⟨f2, hf2, hsome, hk⟩ := hw
    cases List.mem_cons.mp hf2 with
    | inl he =>
      subst he
      rw [(readFlagInfo_none_iff f2 pfx).mp hri] at hsome
      cases hsome
    | inr hm => exact ih out h t ⟨f2, hm, hsome, hk⟩
  · intro fuel seen i collected pfx dval base fld rest info hri hkind df n hreg out h t hw
    have hdf : df = readEnvStr penv info.envTag (dval.fieldD i).asStr := rfl
    rw [hdf] at hreg
    simp only [collectFields, hri, hkind, hreg] at h
    simp at h
  · intro fuel seen i collected pfx dval base fld rest info hri hkind df collected' hreg ih out h t hw
    have hdf : df = readEnvStr penv info.envTag (dval.fieldD i).asStr := rfl
    rw [hdf] at hreg
    simp only [collectFields, hri, hkind, hreg] at h
    obtain ⟨f2, hf2, hsome, hk⟩ := hw
    cases List.mem_cons.mp hf2 with
    | inl he => subst he; rw [hkind] at hk; cases hk
    | inr hm => exact ih out h t ⟨f2, hm, hsome, hk⟩
  · intro fuel seen i collected pfx dval base fld rest info hri hkind df n hreg out h t hw
    have hdf : df = readEnvBool penv info.envTag (dval.fieldD i).asBool := rfl
    rw [hdf] at hreg
    simp only [collectFields, hri, hkind, hreg] at h
    simp at h
  · intro fuel seen i collected pfx dval base fld rest info hri hkind df collected' hreg ih out h t hw
    have hdf : df = readEnvBool penv info.envTag (dval.fieldD i).asBool := rfl
    rw [hdf] at hreg
    simp only [collectFields, hri, hkind, hreg] at h
    obtain ⟨f2, hf2, hsome, hk⟩ := hw
    cases List.mem_cons.mp hf2 with
    | inl he => subst he; rw [hkind] at hk; cases hk
    | inr hm => exact ih out h t ⟨f2, hm, hsome, hk⟩
  · intro fuel seen i collected pfx dval base fld rest info hri hkind df n hreg out h t hw
    have hdf : df = readEnvInt penv info.envTag (dval.fieldD i).asInt := rfl
    rw [hdf] at hreg
    simp only [collectFields, hri, hkind, hreg] at h
    simp at h
  · intro fuel seen i collected pfx dval base fld rest info hri hkind df collected' hreg ih out h t hw
    have hdf : df = readEnvInt penv info.envTag (dval.fieldD i).asInt := rfl
    rw [hdf] at hreg
    simp only [collectFields, hri, hkind, hreg] at h
    obtain ⟨f2, hf2, hsome, hk⟩ := hw
    cases List.mem_cons.mp hf2 with
    | inl he => subst he; rw [hkind] at hk; cases hk
    | inr hm => exact ih out h t ⟨f2, hm, hsome, hk⟩
  · intro fuel seen i collected pfx dval base fld rest info hri n hreg hkind out h t hw
    simp only [collectFields, hri, hkind, hreg] at h
    simp at h
  · intro fuel seen i collected pfx dval base fld rest info hri collected' hreg hkind ih out h t hw
    simp only [collectFields, hri, hkind, hreg] at h
    obtain ⟨f2, hf2, hsome, hk⟩ := hw
    cases List.mem_cons.mp hf2 with
    | inl he => subst he; rw [hkind] at hk; cases hk
    | inr hm => exact ih out h t ⟨f2, hm, hsome, hk⟩
  · intro fuel seen i collected pfx dval base fld rest info hri sk hkind hsk ih out h t hw
    have hskf : sk = false := by revert hsk; cases sk <;> simp
    subst hskf
    simp only [collectFields, hri, hkind] at h
    obtain ⟨f2, hf2, hsome, hk⟩ := hw
    cases List.mem_cons.mp hf2 with
    | inl he => subst he; rw [hkind] at hk; cases hk
    | inr hm => exact ih out h t ⟨f2, hm, hsome, hk⟩
  · intro fuel seen i collected pfx dval base fld rest info hri hkind n hreg out h t hw
    simp only [collectFields, hri, hkind, hreg] at h
    simp at h
  · intro fuel seen i collected pfx dval base fld rest info hri hkind collected' hreg ih out h t hw
    simp only [collectFields, hri, hkind, hreg] at h
    obtain ⟨f2, hf2, hsome, hk⟩ := hw
    cases List.mem_cons.mp hf2 with
    | inl he => subst he; rw [hkind] at hk; cases hk
    | inr hm => exact ih out h t ⟨f2, hm, hsome, hk⟩
  · intro fuel seen i collected pfx dval base fld rest info hri a hkind pfx' e herr ih1 out h t hw
    have hp : pfx' = (if info.name = gs "-" then [] else info.name ++ gs ".") := rfl
    rw [hp] at herr
    simp only [collectFields, hri, hkind, herr] at h
    simp at h
  · intro fuel seen i collected pfx dval base fld rest info hri a hkind pfx' collected' hok ih1 ih2 out h t hw
    have hp : pfx' = (if info.name = gs "-" then [] else info.name ++ gs ".") := rfl
    rw [hp] at hok
    simp only [collectFields, hri, hkind, hok] at h
    obtain ⟨f2, hf2, hsome, hk⟩ := hw
    cases List.mem_cons.mp hf2 with
    | inl he =>
      subst he
      rw [hkind] at hk
      cases hk
      exact ⟨collected, _, dval.fieldD i, base ++ [i], collected', hok⟩
    | inr hm => exact ih2 out h t ⟨f2, hm, hsome, hk⟩
  · intro fuel seen i collected pfx dval base fld rest info hri hkind ih out h t hw
    simp only [collectFields, hri, hkind] at h
    obtain ⟨f2, hf2, hsome, hk⟩ := hw
    cases List.mem_cons.mp hf2 with
    | inl he => subst he; rw [hkind] at hk; cases hk
    | inr hm => exact ih out h t ⟨f2, hm, hsome, hk⟩

/-- Inversion of a successful walk call: the type was not on the current
chain, and the walk had positive fuel. -/
theorem collect_ok_inv (tenv : TypeEnv) (penv : ProcEnv) (fuel : Nat) (seen : List Nat)
    (collected : List FlagReg) (pfx : GoStr) (tidx : Nat) (dval : GoValue) (base : List Nat)
    (out : List FlagReg)
    (h : collectStructFlags tenv penv fuel seen collected pfx tidx dval base = .ok out) :
    tidx ∉ seen ∧ ∃ f, fuel = f + 1 ∧
      collectFields tenv penv f (tidx :: seen) (tenv.getD tidx []) 0 collected pfx dval base = .ok out := by
  cases fuel with
  | zero => simp [collectStructFlags] at h
  | succ f =>
    by_cases hmem : tidx ∈ seen
    · simp [collectStructFlags, hmem] at h
    · exact ⟨hmem, f, rfl, by simpa [collectStructFlags, if_neg hmem] using h⟩

/-- A successful walk call propagates success through one annotated
nested step, with the current type pushed on the chain. -/
theorem collect_ok_step (tenv : TypeEnv) (penv : ProcEnv) (fuel : Nat) (seen : List Nat)
    (collected : List FlagReg) (pfx : GoStr) (tidx : Nat) (dval : GoValue) (base : List Nat)
    (out : List FlagReg) (b : Nat)
    (h : collectStructFlags tenv penv fuel seen collected pfx tidx dval base = .ok out)
    (hstep : StepAnn tenv tidx b) :
    ∃ f c2 p2 d2 b2 o2,
      collectStructFlags tenv penv f (tidx :: seen) c2 p2 b d2 b2 = .ok o2 := by
  obtain ⟨-, f, rfl, hfields⟩ := collect_ok_inv tenv penv fuel seen collected pfx tidx dval base out h
  obtain ⟨fld, hfld, hsome, hk⟩ := hstep
  obtain ⟨c2, p2, d2, b2, o2, hok⟩ := collectFields_ok_child tenv penv f (tidx :: seen)
    (tenv.getD tidx []) 0 collected pfx dval base out hfields b ⟨fld, hfld, hsome, hk⟩
  exact ⟨f, c2, p2, d2, b2, o2, hok⟩

/-- Along a nonempty annotated-reachability path from a type whose walk
call succeeded, the target also has a successful walk call whose chain
contains the whole prefix including the start. -/
theorem collect_ok_transGen (tenv : TypeEnv) (penv : ProcEnv) :
    ∀ (a u : Nat), Relation.TransGen (StepAnn tenv) a u →
    ∀ fuel seen collected pfx dval base out,
      collectStructFlags tenv penv fuel seen collected pfx a dval base = .ok out →
      ∃ f s2 c2 p2 d2 b2 o2,
        collectStructFlags tenv penv f s2 c2 p2 u d2 b2 = .ok o2 ∧ a :: seen ⊆ s2 := by
  intro a u htg
  induction htg using Relation.TransGen.head_induction_on with
  | base hstep =>
    intro fuel seen collected pfx dval base out h
    obtain ⟨f, c2, p2, d2, b2, o2, hok⟩ := collect_ok_step tenv penv fuel seen collected pfx _ dval base out _ h hstep
    exact ⟨f, _, c2, p2, d2, b2, o2, hok, by simp⟩
  | ih hstep _ ih =>
    intro fuel seen collected pfx dval base out h
    obtain ⟨f, c2, p2, d2, b2, o2, hok⟩ := collect_ok_step tenv penv fuel seen collected pfx _ dval base out _ h hstep
    obtain ⟨f3, s3, c3, p3, d3, b3, o3, hok3, hsub⟩ := ih f (_ :: seen) c2 p2 d2 b2 o2 hok
    refine ⟨f3, s3, c3, p3, d3, b3, o3, hok3, ?_⟩
    intro x hx
    cases List.mem_cons.mp hx with
    | inl he => exact hsub (by simp [he])
    | inr hm => exact hsub (by simp [List.mem_cons_of_mem, hm])
  
/-- Reachability preserves walk success (possibly with a deeper chain). -/
theorem collect_ok_reflTransGen (tenv : TypeEnv) (penv : ProcEnv) :
    ∀ (a u : Nat), Relation.ReflTransGen (StepAnn tenv) a u →
    ∀ fuel seen collected pfx dval base out,
      collectStructFlags tenv penv fuel seen collected pfx a dval base = .ok out →
      ∃ f s2 c2 p2 d2 b2 o2, collectStructFlags tenv penv f s2 c2 p2 u d2 b2 = .ok o2 := by
  intro a u hrt
  induction hrt using Relation.ReflTransGen.head_induction_on with
  | refl => intro fuel seen collected pfx dval base out h; exact ⟨fuel, seen, collected, pfx, dval, base, out, h⟩
  | head hstep _ ih =>
    intro fuel seen collected pfx dval base out h
    obtain ⟨f, c2, p2, d2, b2, o2, hok⟩ := collect_ok_step tenv penv fuel seen collected pfx _ dval base out _ h hstep
    exact ih f (_ :: seen) c2 p2 d2 b2 o2 hok

/-- If some type reachable from the root lies on an annotated-nested-field
cycle, the walk fails with a configuration error (it cannot succeed). -/
theorem collect_cycle_error (tenv : TypeEnv) (penv : ProcEnv) (tidx : Nat) (dval : GoValue)
    (hcyc : ∃ u, Relation.ReflTransGen (StepAnn tenv) tidx u ∧ Relation.TransGen (StepAnn tenv) u u) :
    ∃ e, collectStructFlags tenv penv (tenv.length + 1) [] [] [] tidx dval [] = .error e := by
  obtain ⟨u, hreach, hloop⟩ := hcyc
  cases hres : collectStructFlags tenv penv (tenv.length + 1) [] [] [] tidx dval [] with
  | error e => exact ⟨e, rfl⟩
  | ok out =>
    exfalso
    obtain ⟨f, s2, c2, p2, d2, b2, o2, hok⟩ :=
      collect_ok_reflTransGen tenv penv tidx u hreach _ [] [] [] dval [] out hres
    obtain ⟨f3, s3, c3, p3, d3, b3, o3, hok3, hsub⟩ :=
      collect_ok_transGen tenv penv u u hloop f s2 c2 p2 d2 b2 o2 hok
    obtain ⟨hnot, -⟩ := collect_ok_inv tenv penv f3 s3 c3 p3 u d3 b3 o3 hok3
    exact hnot (hsub (by simp))

/-! ## Dispatch match-loop characterization -/

/-- `getLast?` of a cons, in `Option.or` form. -/
theorem getLast?_cons_or {α : Type} (a : α) (l : List α) :
    (a :: l).getLast? = l.getLast?.or (some a) := by
  induction l generalizing a with
  | nil => simp
  | cons b m ih => rw [List.getLast?_cons_cons, ih b]; cases m.getLast? <;> simp

/-- Characterization of the dispatch match loop when no group at this
level matches: the accumulator pattern makes the *last* matching leaf (or
the incoming accumulator, if none matches) win. -/
theorem selectLoop_no_group (nm : GoStr) :
    ∀ (cs : List Cmd) (acc : Option LeafData), noGroupMatch nm cs →
      selectLoop nm cs acc =
        match (matchingLeaves nm cs).getLast?.or acc with
        | some l => SelectRes.leafSel l
        | none => SelectRes.noneSel := by
  intro cs
  induction cs with
  | nil => intro acc _; cases acc <;> simp [selectLoop, matchingLeaves]
  | cons c rest ih =>
    intro acc hng
    have hngr : noGroupMatch nm rest := fun n ch hm => hng n ch (List.mem_cons_of_mem c hm)
    by_cases hm : toLowerStr (cmdName c) = nm
    · cases c with
      | leaf id raw tidx dval =>
        simp only [selectLoop, if_pos hm]
        rw [ih (some ⟨id, raw, tidx, dval⟩) hngr]
        have hml : matchingLeaves nm (Cmd.leaf id raw tidx dval :: rest)
            = ⟨id, raw, tidx, dval⟩ :: matchingLeaves nm rest := by
          simp [matchingLeaves, List.filterMap_cons, cmdName] at hm ⊢
          simp [hm]
        rw [hml, getLast?_cons_or]
        cases (matchingLeaves nm rest).getLast? <;> simp
      | group n ch => exact absurd hm (hng n ch (by simp))
    · simp only [selectLoop, if_neg hm]
      rw [ih acc hngr]
      have hml : matchingLeaves nm (c :: rest) = matchingLeaves nm rest := by
        cases c with
        | leaf id raw tidx dval =>
          simp [matchingLeaves, List.filterMap_cons, cmdName] at hm ⊢
          simp [hm]
        | group n ch => simp [matchingLeaves, List.filterMap_cons]
      rw [hml]

/-! ## Dispatch evaluation equations and expansion counting -/

/-- One-step evaluation of `run`: too few tokens. -/
theorem run_eq_usage_short (tenv : TypeEnv) (fsys : GoStr → Option ArgFile) (cs : List Cmd)
    (env : ProcEnv) (ctx : Ctx) (args : List GoStr)
    (h : args.length < ctx.parents.length + 2) :
    run tenv fsys cs env ctx args = ⟨.usage, env, 0⟩ := by
  rw [run.eq_def]
  simp [h]

/-- One-step evaluation of `run`: the argument-file branch. -/
theorem run_eq_merge (tenv : TypeEnv) (fsys : GoStr → Option ArgFile) (cs : List Cmd)
    (env : ProcEnv) (ctx : Ctx) (args : List GoStr)
    (hlen : ¬ args.length < ctx.parents.length + 2)
    (hg : (toLowerStr (args.getD (ctx.parents.length + 1) [])).head? = some '@' ∧ ctx.argFile = none) :
    run tenv fsys cs env ctx args =
      match mergeArgsFileArgs (toLowerStr (args.getD (ctx.parents.length + 1) [])).tail fsys env ctx.parents args with
      | (env', .error .panicOOB) => ⟨.panicked, env', 0⟩
      | (env', .error e) => ⟨.mergeFailed e, env', 0⟩
      | (env', .ok (af, merged)) =>
        let r := run tenv fsys cs env' { ctx with argFile := some af } merged
        { r with expansions := r.expansions + 1 } := by
  rw [run.eq_def]
  rw [if_neg hlen]
  simp only [dif_pos hg]

/-- One-step evaluation of `run`: the dispatch branch. -/
theorem run_eq_dispatch (tenv : TypeEnv) (fsys : GoStr → Option ArgFile) (cs : List Cmd)
    (env : ProcEnv) (ctx : Ctx) (args : List GoStr)
    (hlen : ¬ args.length < ctx.parents.length + 2)
    (hg : ¬ ((toLowerStr (args.getD (ctx.parents.length + 1) [])).head? = some '@' ∧ ctx.argFile = none)) :
    run tenv fsys cs env ctx args =
      match selectLoop (toLowerStr (args.getD (ctx.parents.length + 1) [])) cs none with
      | .noneSel => ⟨.usage, env, 0⟩
      | .groupSel ch =>
        run tenv fsys ch env { ctx with parents := ctx.parents ++ [toLowerStr (args.getD (ctx.parents.length + 1) [])] } args
      | .leafSel l =>
        if cmdLeafName l.rawName = [] then ⟨.usage, env, 0⟩
        else
          match positionalArgsOf l.rawName with
          | none => ⟨.panicked, env, 0⟩
          | some posNames =>
            match unmarshalFlagsV2 tenv env l.tidx l.dval (args.drop (ctx.parents.length + 2)) with
            | .error (.config _) => ⟨.panicked, env, 0⟩
            | .error (.parse e) => ⟨.parseFailed e, env, 0⟩
            | .ok (remaining0, v) =>
              let fp := fillPositionalArgs (tenv.getD l.tidx []) posNames v remaining0
              ⟨.executed l.id fp.1 fp.2, env, 0⟩ := by
  rw [run.eq_def]
  rw [if_neg hlen]
  simp only [dif_neg hg]
  cases selectLoop (toLowerStr (args.getD (ctx.parents.length + 1) [])) cs none <;> rfl

/-- Expansion counting: any dispatch chain expands at most one argument
file, and none at all once an argument file is already loaded in the
context. -/
theorem run_expansion_count (tenv : TypeEnv) (fsys : GoStr → Option ArgFile) :
    ∀ cs env ctx args,
      (run tenv fsys cs env ctx args).expansions ≤ 1 ∧
      (ctx.argFile.isSome → (run tenv fsys cs env ctx args).expansions = 0) := by
  refine run.induct tenv fsys
    (fun cs env ctx args =>
      (run tenv fsys cs env ctx args).expansions ≤ 1 ∧
      (ctx.argFile.isSome → (run tenv fsys cs env ctx args).expansions = 0))
    ?_ ?_ ?_ ?_ ?_ ?_ ?_ ?_ ?_ ?_ ?_
  · intro cs env ctx args hlen
    rw [run_eq_usage_short tenv fsys cs env ctx args hlen]
    simp
  · intro cs env ctx args hlen cur hg env' hmerge
    replace hmerge : mergeArgsFileArgs (toLowerStr (args.getD (ctx.parents.length + 1) [])).tail
        fsys env ctx.parents args = (env', .error .panicOOB) := hmerge
    rw [run_eq_merge tenv fsys cs env ctx args hlen hg, hmerge]
    simp
  · intro cs env ctx args hlen cur hg env' e hne hmerge
    replace hmerge : mergeArgsFileArgs (toLowerStr (args.getD (ctx.parents.length + 1) [])).tail
        fsys env ctx.parents args = (env', .error e) := hmerge
    rw [run_eq_merge tenv fsys cs env ctx args hlen hg, hmerge]
    cases e with
    | panicOOB => exact absurd rfl hne
    | readErr => simp
    | setenvErr => simp
  · intro cs env ctx args hlen cur hg env' af merged hmerge ih
    replace hmerge : mergeArgsFileArgs (toLowerStr (args.getD (ctx.parents.length + 1) [])).tail
        fsys env ctx.parents args = (env', .ok (af, merged)) := hmerge
    rw [run_eq_merge tenv fsys cs env ctx args hlen hg, hmerge]
    have h0 := ih.2 (by simp)
    refine ⟨by simp [h0], fun hsome => ?_⟩
    rw [hg.2] at hsome
    cases hsome
  · intro cs env ctx args hlen cur hg hsel
    replace hsel : selectLoop (toLowerStr (args.getD (ctx.parents.length + 1) [])) cs none
        = SelectRes.noneSel := hsel
    rw [run_eq_dispatch tenv fsys cs env ctx args hlen hg, hsel]
    simp
  · intro cs env ctx args hlen cur hg ch hsel ih
    replace hsel : selectLoop (toLowerStr (args.getD (ctx.parents.length + 1) [])) cs none
        = SelectRes.groupSel ch := hsel
    rw [run_eq_dispatch tenv fsys cs env ctx args hlen hg, hsel]
    exact ih
  · intro cs env ctx args hlen cur hg l hsel hname
    replace hsel : selectLoop (toLowerStr (args.getD (ctx.parents.length + 1) [])) cs none
        = SelectRes.leafSel l := hsel
    rw [run_eq_dispatch tenv fsys cs env ctx args hlen hg, hsel]
    dsimp only
    rw [if_pos hname]
    simp
  · intro cs env ctx args hlen cur hg l hsel hname hpos
    replace hsel : selectLoop (toLowerStr (args.getD (ctx.parents.length + 1) [])) cs none
        = SelectRes.leafSel l := hsel
    rw [run_eq_dispatch tenv fsys cs env ctx args hlen hg, hsel]
    dsimp only
    rw [if_neg hname, hpos]
    simp
  · intro cs env ctx args hlen cur hg l hsel hname pn hpos e hum
    replace hsel : selectLoop (toLowerStr (args.getD (ctx.parents.length + 1) [])) cs none
        = SelectRes.leafSel l := hsel
    rw [run_eq_dispatch tenv fsys cs env ctx args hlen hg, hsel]
    dsimp only
    rw [if_neg hname, hpos, hum]
    simp
  · intro cs env ctx args hlen cur hg l hsel hname pn hpos e hum
    replace hsel : selectLoop (toLowerStr (args.getD (ctx.parents.length + 1) [])) cs none
        = SelectRes.leafSel l := hsel
    rw [run_eq_dispatch tenv fsys cs env ctx args hlen hg, hsel]
    dsimp only
    rw [if_neg hname, hpos, hum]
    simp
  · intro cs env ctx args hlen cur hg l hsel hname pn hpos remaining0 v hum
    replace hsel : selectLoop (toLowerStr (args.getD (ctx.parents.length + 1) [])) cs none
        = SelectRes.leafSel l := hsel
    rw [run_eq_dispatch tenv fsys cs env ctx args hlen hg, hsel]
    dsimp only
    rw [if_neg hname, hpos, hum]
    simp

/-! ## Map lookup after the final build pass (for the last-wins claim) -/

/-- Inserting a binding makes it the one the lookup finds. -/
theorem lookupMap_insertOverwrite_self (m : List (GoStr × GoStr)) (k v : GoStr) :
    lookupMap (insertOverwrite m k v) k = some v := by
  induction m with
  | nil => simp [insertOverwrite, lookupMap, List.find?]
  | cons e rest ih =>
    by_cases h : e.1 = k
    · simp [insertOverwrite, h, lookupMap, List.find?]
    · simp only [insertOverwrite, if_neg h]
      simp only [lookupMap, List.find?_cons] at ih ⊢
      rw [show (decide (e.1 = k)) = false from by simp [h]]
      exact ih

/-- Inserting one key leaves the other keys' lookups unchanged. -/
theorem lookupMap_insertOverwrite_ne (m : List (GoStr × GoStr)) (k v k' : GoStr)
    (h : k ≠ k') : lookupMap (insertOverwrite m k v) k' = lookupMap m k' := by
  induction m with
  | nil => simp [insertOverwrite, lookupMap, List.find?, h]
  | cons e rest ih =>
    by_cases he : e.1 = k
    · simp only [insertOverwrite, if_pos he, lookupMap, List.find?_cons]
      rw [show (decide (k = k')) = false from by simp [h],
        show (decide (e.1 = k')) = false from by simp [he, h]]
    · simp only [insertOverwrite, if_neg he, lookupMap, List.find?_cons] at ih ⊢
      cases hd : decide (e.1 = k') <;> simp [ih]

/-- The lookup after the fold of `insertOverwrite` over the collected
entries sees the last entry for the key, and the start map only when the
key never occurs. -/
theorem buildStringMap_foldl_lookup (k : GoStr) :
    ∀ (entries : List (GoStr × GoStr)) (m : List (GoStr × GoStr)),
      lookupMap (entries.foldl (fun m e => insertOverwrite m e.1 e.2) m) k =
        (match (entries.filter (fun e => e.1 = k)).getLast? with
         | some e => some e.2
         | none => lookupMap m k) := by
  intro entries
  induction entries with
  | nil => intro m; simp
  | cons e rest ih =>
    intro m
    rw [List.foldl_cons, ih]
    by_cases he : e.1 = k
    · rw [List.filter_cons_of_pos (by simp [he]), getLast?_cons_or]
      cases hl : (List.filter (fun e => decide (e.1 = k)) rest).getLast? with
      | some e' => simp
      | none =>
        simp only [Option.none_or]
        rw [← he, lookupMap_insertOverwrite_self]
    · rw [List.filter_cons_of_neg (by simp [he]),
        lookupMap_insertOverwrite_ne m e.1 e.2 k he]

/-- `strings.SplitN` finds no separator: the whole string is one piece. -/
theorem breakFirst_none (c : Char) :
    ∀ s : GoStr, c ∉ s → breakFirst c s = (s, none) := by
  intro s
  induction s with
  | nil => intro _; rfl
  | cons x xs ih =>
    intro hmem
    simp only [List.mem_cons, not_or] at hmem
    have hne : ¬ (x = c) := fun h => hmem.1 h.symm
    simp only [breakFirst, if_neg hne]
    rw [ih hmem.2]

/-! ## Concrete schemas, forests and argument files used by the claims -/

/-- A record with one annotated string field and one unannotated field. -/
def tenvC1 : TypeEnv :=
  [[ { flagTag := gs "string", kind := .str },
     { kind := .str } ]]

/-- A record with an annotated string, bool and int field, each bound to
an environment variable. -/
def tenvC2 : TypeEnv :=
  [[ { flagTag := gs "string", envTag := gs "STR", kind := .str },
     { flagTag := gs "bool", envTag := gs "BOOL", kind := .bool },
     { flagTag := gs "int", envTag := gs "INT", kind := .int } ]]

/-- A process environment defining all three variables of `tenvC2`. -/
def penvC2W : ProcEnv := [(gs "STR", gs "es"), (gs "BOOL", gs "true"), (gs "INT", gs "7")]

/-- One empty record type (commands with no flags). -/
def tenvC3 : TypeEnv := [[]]

/-- Two leaf commands declared with the same name `dup`, ids 0 and 1. -/
def csC3 : List Cmd :=
  [.leaf 0 (gs "dup") 0 (.vstruct []), .leaf 1 (gs "dup") 0 (.vstruct [])]

/-- A record with an annotated string, list and map field plus an
unannotated field. -/
def tenvC4 : TypeEnv :=
  [[ { flagTag := gs "s", kind := .str },
     { flagTag := gs "l", kind := .slice },
     { flagTag := gs "m", kind := .strMap true },
     { kind := .str } ]]

/-- Caller defaults for `tenvC4`: every field non-zero. -/
def dvalC4 : GoValue :=
  .vstruct [.vstr (gs "d"), .vslice [gs "a"], .vmap [(gs "k", gs "v")], .vstr (gs "u")]

/-- A record with one annotated string-keyed map field. -/
def tenvC5 : TypeEnv := [[ { flagTag := gs "map", kind := .strMap true } ]]

/-- Two record types nested in each other through annotated fields: a
true recursion cycle. -/
def tenvC6 : TypeEnv :=
  [ [ { flagTag := gs "a", kind := .strct 1 } ],
    [ { flagTag := gs "b", kind := .strct 0 } ] ]

/-- A record repeating the same nested type in two sibling fields: no
recursion cycle. -/
def tenvSib : TypeEnv :=
  [ [ { flagTag := gs "a", kind := .strct 1 },
      { flagTag := gs "b", kind := .strct 1 } ],
    [ { flagTag := gs "c", kind := .str } ] ]

/-- A cycle-free one-field record type. -/
def tenvC6w : TypeEnv := [[ { flagTag := gs "x", kind := .str } ]]

/-- An argument file whose rewritten vector contains its own `@` reference. -/
def afC7 : ArgFile := { args := [gs "@f"] }

/-- A file system holding only the self-including file `f`. -/
def fsysC7 : GoStr → Option ArgFile := fun f => if f = gs "f" then some afC7 else none

/-- A record with one annotated string flag named `flag`. -/
def tenvC8 : TypeEnv := [[ { flagTag := gs "flag", kind := .str } ]]

/-- The argument file of the claim: env `["b=1","x=a$b"]`, args
`["--flag=$b"]`, selecting command `cmd`. -/
def afC8 : ArgFile :=
  { command := [gs "cmd"], env := [gs "b=1", gs "x=a$b"], args := [gs "--flag=$b"] }

/-- A file system holding only `f` as `afC8`. -/
def fsysC8 : GoStr → Option ArgFile := fun f => if f = gs "f" then some afC8 else none

/-- One leaf command `cmd` over `tenvC8`. -/
def csC8 : List Cmd := [.leaf 0 (gs "cmd") 0 (.vstruct [.vstr []])]

/-- The two positional fields of a `[file] [rest...]` command. -/
def fldsC9 : List GoField :=
  [ { flagTag := gs "[file]", kind := .str },
    { flagTag := gs "[rest...]", kind := .slice } ]

/-- An argument file whose one `env` entry has no `=`. -/
def afC10 : ArgFile := { env := [gs "FOO"] }

/-- A file system holding only `f` as `afC10`. -/
def fsysC10 : GoStr → Option ArgFile := fun f => if f = gs "f" then some afC10 else none

/-- The descriptor list the v1 walk collects for `tenvC4`. -/
theorem collect_tenvC4 : collectStructFlags tenvC4 [] (tenvC4.length + 1) [] [] [] 0 dvalC4 [] =
    .ok [⟨gs "s", [], [], [0], .str (gs "d")⟩,
         ⟨gs "l", [], [], [1], .arr []⟩,
         ⟨gs "m", [], [], [2], .smap []⟩] := by
  simp [collectStructFlags, collectFields, tenvC4, dvalC4, readFlagInfo, splitOnChar, gs,
    registerReg, readEnvStr, GoValue.fieldD, GoValue.asStr]

/-! ## The claims -/

/-- C1: the claim says the schema walk registers one flag per annotated
primitive field, so that after walking a record with an annotated string
field named `string` the flag `-string` is parseable.  In the v2 code this
fails: the per-field guard `readPositionalArg(info.name) == ""` skips every
field whose flag name is not of the bracketed positional form, so the v2
walk registers nothing and `-string=x` is rejected as not defined, while
the v1 walk (same repository, first version of flags.go) registers exactly
the annotated field and binds `x`, and skips the unannotated field. -/
theorem C1_v2_walk_drops_plain_flags :
    (collectStructFlagsV2 tenvC1 [] (tenvC1.length + 1) [] [] [] 0
        (.vstruct [.vstr (gs "d"), .vstr (gs "u")]) [] = .ok []) ∧
    (unmarshalFlagsV2 tenvC1 [] 0 (.vstruct [.vstr (gs "d"), .vstr (gs "u")])
        [gs "-string=x"] = .error (.parse (.notDefined (gs "string")))) ∧
    (collectStructFlags tenvC1 [] (tenvC1.length + 1) [] [] [] 0
        (.vstruct [.vstr (gs "d"), .vstr (gs "u")]) [] =
      .ok [⟨gs "string", [], [], [0], .str (gs "d")⟩]) ∧
    (unmarshalFlags tenvC1 [] 0 (.vstruct [.vstr (gs "d"), .vstr (gs "u")])
        [gs "-string=x"] = .ok ([], .vstruct [.vstr (gs "x"), .vstr []])) := by
  have hc2 : collectStructFlagsV2 tenvC1 [] (tenvC1.length + 1) [] [] [] 0
      (.vstruct [.vstr (gs "d"), .vstr (gs "u")]) [] = .ok [] := by
    simp [collectStructFlagsV2, collectFieldsV2, tenvC1, readFlagInfo, splitOnChar, gs,
      readPositionalArg]
  have hc1 : collectStructFlags tenvC1 [] (tenvC1.length + 1) [] [] [] 0
      (.vstruct [.vstr (gs "d"), .vstr (gs "u")]) [] =
      .ok [⟨gs "string", [], [], [0], .str (gs "d")⟩] := by
    simp [collectStructFlags, collectFields, tenvC1, readFlagInfo, splitOnChar, gs,
      registerReg, readEnvStr, GoValue.fieldD, GoValue.asStr]
  refine ⟨hc2, ?_, hc1, ?_⟩
  · simp only [unmarshalFlagsV2]
    rw [hc2]
    rfl
  · simp only [unmarshalFlags]
    rw [hc1]
    rfl

/-- C2: explicit argument beats environment variable beats compiled-in
default.  For the three-field record `tenvC2`, whenever the process
environment defines all three variables with parseable values, a parse
with no tokens resolves every field to its environment value (overriding
any defaults `d1`, `b2`, `n3`), and a parse with explicit `-flag=value`
tokens resolves every field to the explicit value. -/
theorem C2_env_precedence (penv : ProcEnv) (d1 : GoStr) (b2 : Bool) (n3 : Int)
    (ev1 ev2 ev3 : GoStr) (bv : Bool) (nv : Int)
    (h1 : lookupEnv penv (gs "STR") = some ev1)
    (h2 : lookupEnv penv (gs "BOOL") = some ev2)
    (h3 : lookupEnv penv (gs "INT") = some ev3)
    (hb : parseBoolGo ev2 = some bv)
    (hn : parseIntB10 ev3 = some nv) :
    unmarshalFlags tenvC2 penv 0 (.vstruct [.vstr d1, .vbool b2, .vint n3]) [] =
      .ok ([], .vstruct [.vstr ev1, .vbool bv, .vint nv]) ∧
    ∀ (v1 v2 v3 : GoStr) (tb : Bool) (tn : Int),
      parseBoolGo v2 = some tb →
      parseIntB0 v3 = some tn →
      unmarshalFlags tenvC2 penv 0 (.vstruct [.vstr d1, .vbool b2, .vint n3])
        [gs "-string=" ++ v1, gs "-bool=" ++ v2, gs "-int=" ++ v3] =
        .ok ([], .vstruct [.vstr v1, .vbool tb, .vint tn]) := by
  have h1' : lookupEnv penv ['S', 'T', 'R'] = some ev1 := h1
  have h2' : lookupEnv penv ['B', 'O', 'O', 'L'] = some ev2 := h2
  have h3' : lookupEnv penv ['I', 'N', 'T'] = some ev3 := h3
  have he1 : readEnvStr penv (gs "STR") d1 = ev1 := by simp [readEnvStr, gs, h1']
  have he2 : readEnvBool penv (gs "BOOL") b2 = bv := by simp [readEnvBool, gs, h2', hb]
  have he3 : readEnvInt penv (gs "INT") n3 = nv := by simp [readEnvInt, gs, h3', hn]
  have hcol : collectStructFlags tenvC2 penv (tenvC2.length + 1) [] [] []
      0 (.vstruct [.vstr d1, .vbool b2, .vint n3]) [] =
      .ok [ ⟨gs "string", gs "STR", [], [0], .str ev1⟩,
            ⟨gs "bool", gs "BOOL", [], [1], .bool bv⟩,
            ⟨gs "int", gs "INT", [], [2], .int nv⟩ ] := by
    simp [collectStructFlags, collectFields, tenvC2, readFlagInfo, splitOnChar, registerReg, gs,
      GoValue.fieldD, GoValue.asStr, GoValue.asBool, GoValue.asInt]
    exact ⟨he1, he2, he3⟩
  constructor
  · simp only [unmarshalFlags]
    rw [hcol]
    rfl
  · intro v1 v2 v3 tb tn hpb hpn
    simp only [unmarshalFlags]
    rw [hcol]
    dsimp only
    have hs1 : parseArgsLoop (initState [ ⟨gs "string", gs "STR", [], [0], .str ev1⟩,
        ⟨gs "bool", gs "BOOL", [], [1], .bool bv⟩,
        ⟨gs "int", gs "INT", [], [2], .int nv⟩ ])
        [gs "-string=" ++ v1, gs "-bool=" ++ v2, gs "-int=" ++ v3] =
        (match parseBoolGo v2 with
         | some b => parseArgsLoop
             [(gs "string", .str v1), (gs "bool", .bool b), (gs "int", .int nv)]
             [gs "-int=" ++ v3]
         | none => .error (.badBoolValue v2 (gs "bool"))) := rfl
    rw [hs1, hpb]
    dsimp only
    have hs2 : parseArgsLoop [(gs "string", .str v1), (gs "bool", .bool tb), (gs "int", .int nv)]
        [gs "-int=" ++ v3] =
        (match setNonBool (.int nv) (gs "int") v3 with
         | .error e => .error e
         | .ok fv' => parseArgsLoop
             [(gs "string", .str v1), (gs "bool", .bool tb), (gs "int", fv')] []) := rfl
    rw [hs2, show setNonBool (.int nv) (gs "int") v3 = .ok (.int tn) from by simp [setNonBool, hpn]]
    dsimp only
    rfl

/-- C2 witness: the precedence theorem applied at a concrete environment,
defaults and token values. -/
theorem C2_env_precedence_witness :
    (unmarshalFlags tenvC2 penvC2W 0 (.vstruct [.vstr (gs "d"), .vbool false, .vint 0]) [] =
      .ok ([], .vstruct [.vstr (gs "es"), .vbool true, .vint 7])) ∧
    (unmarshalFlags tenvC2 penvC2W 0 (.vstruct [.vstr (gs "d"), .vbool false, .vint 0])
        [gs "-string=" ++ gs "x", gs "-bool=" ++ gs "false", gs "-int=" ++ gs "3"] =
      .ok ([], .vstruct [.vstr (gs "x"), .vbool false, .vint 3])) :=
  ⟨(C2_env_precedence penvC2W (gs "d") false 0 (gs "es") (gs "true") (gs "7") true 7
      rfl rfl rfl rfl rfl).1,
   (C2_env_precedence penvC2W (gs "d") false 0 (gs "es") (gs "true") (gs "7") true 7
      rfl rfl rfl rfl rfl).2 (gs "x") (gs "false") (gs "3") false 3 rfl rfl⟩

/-- C3 counterexample: two same-named leaves, ids 0 then 1 in declaration
order.  The first matching node is the leaf with id 0, yet dispatching
`dup` executes the leaf with id 1 — the `break` inside the type switch does
not leave the scan, so the last matching leaf overwrites the first. -/
theorem C3_duplicate_name_counterexample :
    (matchingLeaves (gs "dup") csC3).head? = some ⟨0, gs "dup", 0, .vstruct []⟩ ∧
    run tenvC3 (fun _ => none) csC3 [] ⟨[], none⟩ [gs "p", gs "dup"] =
      ⟨.executed 1 (.vstruct []) [], [], 0⟩ := by
  refine ⟨rfl, ?_⟩
  rw [run_eq_dispatch tenvC3 (fun _ => none) csC3 [] ⟨[], none⟩ [gs "p", gs "dup"]
      (by decide) (by intro hcon; exact absurd hcon.1 (by decide))]
  have hcolV2 : collectStructFlagsV2 tenvC3 [] (tenvC3.length + 1) [] [] [] 0
      (.vstruct []) [] = .ok [] := by
    simp [collectStructFlagsV2, collectFieldsV2, tenvC3]
  rw [show selectLoop (toLowerStr ([gs "p", gs "dup"].getD
        ((⟨[], none⟩ : Ctx).parents.length + 1) [])) csC3 none
      = .leafSel ⟨1, gs "dup", 0, .vstruct []⟩ from rfl]
  dsimp only
  rw [if_neg (show ¬ cmdLeafName (gs "dup") = [] by decide)]
  rw [show positionalArgsOf (gs "dup") = some [] from rfl]
  dsimp only
  simp only [unmarshalFlagsV2]
  rw [hcolV2]
  rfl

/-- C3 (amended): at a forest level where no group matches the lowered
name, the match loop selects the LAST matching leaf in declaration order
(not the first, as the spec claims), and reports no match only when no
leaf matches. -/
theorem C3_last_matching_leaf_wins (nm : GoStr) (cs : List Cmd) (hng : noGroupMatch nm cs) :
    selectLoop nm cs none =
      (match (matchingLeaves nm cs).getLast? with
       | some l => SelectRes.leafSel l
       | none => SelectRes.noneSel) := by
  rw [selectLoop_no_group nm cs none hng]
  cases (matchingLeaves nm cs).getLast? <;> rfl

/-- C3 witness: the amended theorem applied to the duplicate-name forest
selects the later leaf (id 1). -/
theorem C3_last_matching_leaf_wins_witness :
    selectLoop (gs "dup") csC3 none = .leafSel ⟨1, gs "dup", 0, .vstruct []⟩ := by
  have h := C3_last_matching_leaf_wins (gs "dup") csC3 (by intro n ch hm; simp [csC3] at hm)
  rw [h]
  rfl

/-- C4 counterexample: with no tokens, no environment and no positionals,
the resolved record does NOT equal the caller defaults: the annotated
string field keeps its default `d`, but the annotated list and map fields
are reset to empty (their defaults `["a"]` and `{k: v}` are dropped), and
the unannotated field gets the zero value instead of its default `u`. -/
theorem C4_defaults_counterexample :
    unmarshalFlags tenvC4 [] 0 dvalC4 [] =
      .ok ([], .vstruct [.vstr (gs "d"), .vslice [], .vmap [], .vstr []]) ∧
    ¬ unmarshalFlags tenvC4 [] 0 dvalC4 [] = .ok ([], dvalC4) := by
  have heq : unmarshalFlags tenvC4 [] 0 dvalC4 [] =
      .ok ([], .vstruct [.vstr (gs "d"), .vslice [], .vmap [], .vstr []]) := by
    simp only [unmarshalFlags]
    rw [collect_tenvC4]
    rfl
  refine ⟨heq, ?_⟩
  rw [heq]
  simp [dvalC4, gs]

/-- C4 (amended): a parse with no flag tokens resolves the record to
`resolveStruct`: annotated string/bool/int fields carry the caller
defaults overridden by any present environment variable, annotated
list-of-string and string-map fields are reset to empty regardless of
their defaults, annotated nested records recurse, and all other fields
(unannotated ones included) keep their zero values; concretely, `tenvC4`
resolves to default string `d`, empty list, empty map and zero string. -/
theorem C4_no_token_resolution (tenv : TypeEnv) (penv : ProcEnv) (tidx : Nat) (dval : GoValue)
    (regs : List FlagReg)
    (hcol : collectStructFlags tenv penv (tenv.length + 1) [] [] [] tidx dval [] = .ok regs) :
    unmarshalFlags tenv penv tidx dval [] =
      .ok ([], resolveStruct tenv penv (tenv.length + 1) tidx dval) ∧
    unmarshalFlags tenvC4 [] 0 dvalC4 [] =
      .ok ([], .vstruct [.vstr (gs "d"), .vslice [], .vmap [], .vstr []]) := by
  refine ⟨unmarshalFlags_no_tokens tenv penv tidx dval regs hcol, ?_⟩
  simp only [unmarshalFlags]
  rw [collect_tenvC4]
  rfl

/-- C4 witness: the amended theorem applied to `tenvC4` with its concrete
descriptor list. -/
theorem C4_no_token_resolution_witness :
    unmarshalFlags tenvC4 [] 0 dvalC4 [] =
      .ok ([], resolveStruct tenvC4 [] (tenvC4.length + 1) 0 dvalC4) :=
  (C4_no_token_resolution tenvC4 [] 0 dvalC4
    [⟨gs "s", [], [], [0], .str (gs "d")⟩,
     ⟨gs "l", [], [], [1], .arr []⟩,
     ⟨gs "m", [], [], [2], .smap []⟩] collect_tenvC4).1

/-- C5: the resolved map is built by one final pass over the collected
`key=value` pairs in encounter order, so the last occurrence of a key
wins: in general the lookup into the built map returns the last collected
entry for the key, and concretely `-map=a=1 -map=a=2` resolves to the map
`{a: 2}`. -/
theorem C5_map_last_occurrence_wins :
    (∀ (entries : List (GoStr × GoStr)) (k : GoStr),
      lookupMap (buildStringMap entries) k =
        (match (entries.filter (fun e => e.1 = k)).getLast? with
         | some e => some e.2
         | none => none)) ∧
    unmarshalFlags tenvC5 [] 0 (.vstruct [.vmap []]) [gs "-map=a=1", gs "-map=a=2"] =
      .ok ([], .vstruct [.vmap [(gs "a", gs "2")]]) := by
  constructor
  · intro entries k
    rw [buildStringMap, buildStringMap_foldl_lookup k entries []]
    cases (List.filter (fun e => decide (e.1 = k)) entries).getLast? <;> rfl
  · have hcol : collectStructFlags tenvC5 [] (tenvC5.length + 1) [] [] [] 0
        (.vstruct [.vmap []]) [] = .ok [⟨gs "map", [], [], [0], .smap []⟩] := by
      simp [collectStructFlags, collectFields, tenvC5, readFlagInfo, splitOnChar, gs, registerReg]
    simp only [unmarshalFlags]
    rw [hcol]
    rfl

/-- C6: the schema walk terminates on every well-formed type environment
(it never runs out of the fuel that models Go's call stack), fails with a
configuration error whenever a type reachable from the root can reach
itself through annotated nested fields, and does not fail for types merely
repeated in sibling positions: the mutual cycle `tenvC6` yields the cycle
error, the sibling repetition `tenvSib` collects both nested copies. -/
theorem C6_cycle_walk_fails :
    (∀ (tenv : TypeEnv) (penv : ProcEnv) (tidx : Nat) (dval : GoValue),
      WFTypeEnv tenv → tidx < tenv.length →
      collectStructFlags tenv penv (tenv.length + 1) [] [] [] tidx dval [] ≠ .error .fuelOut) ∧
    (∀ (tenv : TypeEnv) (penv : ProcEnv) (tidx : Nat) (dval : GoValue),
      (∃ u, Relation.ReflTransGen (StepAnn tenv) tidx u ∧
        Relation.TransGen (StepAnn tenv) u u) →
      ∃ e, collectStructFlags tenv penv (tenv.length + 1) [] [] [] tidx dval [] = .error e) ∧
    (collectStructFlags tenvC6 [] (tenvC6.length + 1) [] [] [] 0 .vother [] =
      .error (.cycle 0)) ∧
    (collectStructFlags tenvSib [] (tenvSib.length + 1) [] [] [] 0
        (.vstruct [.vother, .vother]) [] =
      .ok [⟨gs "a.c", [], [], [0, 0], .str []⟩, ⟨gs "b.c", [], [], [1, 0], .str []⟩]) := by
  refine ⟨fun tenv penv tidx dval hwf htx => collect_terminates tenv penv tidx dval hwf htx,
    fun tenv penv tidx dval hcyc => collect_cycle_error tenv penv tidx dval hcyc, ?_, ?_⟩
  · simp [collectStructFlags, collectFields, tenvC6, readFlagInfo, splitOnChar, gs]
  · simp [collectStructFlags, collectFields, tenvSib, readFlagInfo, splitOnChar, gs,
      registerReg, readEnvStr, GoValue.fieldD, GoValue.asStr]

/-- C6 witness: the termination conjunct applied to the cycle-free
`tenvC6w`, and the cycle conjunct applied to the mutual cycle `tenvC6`
(with the reachability witness 0 to 1 to 0). -/
theorem C6_cycle_walk_fails_witness :
    (collectStructFlags tenvC6w [] (tenvC6w.length + 1) [] [] [] 0
        (.vstruct [.vstr []]) [] ≠ .error .fuelOut) ∧
    (∃ e, collectStructFlags tenvC6 [] (tenvC6.length + 1) [] [] [] 0 .vother [] =
      .error e) := by
  constructor
  · refine C6_cycle_walk_fails.1 tenvC6w [] 0 (.vstruct [.vstr []]) ?_ (by decide)
    intro s hs fld hfld t ht
    simp only [tenvC6w, List.mem_singleton] at hs
    subst hs
    simp only [List.mem_singleton] at hfld
    subst hfld
    simp at ht
  · refine C6_cycle_walk_fails.2.1 tenvC6 [] 0 .vother ⟨0, .refl, ?_⟩
    have s01 : StepAnn tenvC6 0 1 :=
      ⟨{ flagTag := gs "a", kind := .strct 1 }, by simp [tenvC6], by decide, rfl⟩
    have s10 : StepAnn tenvC6 1 0 :=
      ⟨{ flagTag := gs "b", kind := .strct 0 }, by simp [tenvC6], by decide, rfl⟩
    exact Relation.TransGen.head s01 (Relation.TransGen.single s10)

/-- C7: any dispatch chain expands at most one argument file, and none at
all once an argument file is loaded in the context; concretely, running
the self-including file `@f` (whose rewritten vector contains `@f` again)
terminates after exactly one expansion, with the second `@f` looked up as
an ordinary command name (no match, so usage). -/
theorem C7_one_shot_argfile :
    (∀ (tenv : TypeEnv) (fsys : GoStr → Option ArgFile) (cs : List Cmd) (env : ProcEnv)
       (ctx : Ctx) (args : List GoStr),
      (run tenv fsys cs env ctx args).expansions ≤ 1 ∧
      (ctx.argFile.isSome → (run tenv fsys cs env ctx args).expansions = 0)) ∧
    run [] fsysC7 [] [] ⟨[], none⟩ [gs "p", gs "@f"] = ⟨.usage, [], 1⟩ := by
  constructor
  · intro tenv fsys cs env ctx args
    exact run_expansion_count tenv fsys cs env ctx args
  · have hm : mergeArgsFileArgs (gs "f") fsysC7 [] [] [gs "p", gs "@f"] =
        ([], .ok (afC7, [gs "p", gs "@f"])) := by
      have hexp : expandEnv [] (gs "@f") = gs "@f" := by
        simp [expandEnv, expandGo, getShellName, isShellSpecialVar, isAlphaNumGo,
          lookupEnv, gs, List.find?, List.takeWhile]
      simp only [mergeArgsFileArgs, show fsysC7 (gs "f") = some afC7 from rfl]
      rw [show afC7.env = [] from rfl]
      dsimp only [applyEnvEntries]
      rw [show afC7.args = [gs "@f"] from rfl]
      simp only [List.map_cons, List.map_nil, hexp]
      rfl
    rw [run_eq_merge [] fsysC7 [] [] ⟨[], none⟩ [gs "p", gs "@f"] (by decide) ⟨rfl, rfl⟩]
    rw [show (toLowerStr ([gs "p", gs "@f"].getD (([] : List GoStr).length + 1) [])).tail
        = gs "f" from rfl]
    rw [show (⟨[], none⟩ : Ctx).parents = [] from rfl, hm]
    dsimp only
    rw [run_eq_dispatch [] fsysC7 [] [] ⟨[], some afC7⟩ [gs "p", gs "@f"] (by decide) (by simp)]
    rfl

/-- C7 witness: the counting theorem applied with an argument file already
in the context gives zero further expansions. -/
theorem C7_one_shot_argfile_witness :
    (run [] fsysC7 [] [] ⟨[], some afC7⟩ [gs "p", gs "@f"]).expansions = 0 :=
  (C7_one_shot_argfile.1 [] fsysC7 [] [] ⟨[], some afC7⟩ [gs "p", gs "@f"]).2 rfl

/-- C8: the ArgFile environment entries are applied left to right with
expansion against the current environment (`b=1` then `x=a$b` leaves
`b=1, x=a1`), and each args token is expanded (`--flag=$b` becomes
`--flag=1`) — but dispatching the file does NOT bind the flag: the v2
walk's bracketed-name guard leaves `flag` unregistered, so the run ends in
`flag provided but not defined` instead of executing with the flag bound
to `1`; the v1 parser on the same expanded token does bind `1`, showing
the intended behaviour. -/
theorem C8_argfile_env_binding :
    (applyEnvEntries [] [gs "b=1", gs "x=a$b"] =
      .envOk [(gs "b", gs "1"), (gs "x", gs "a1")]) ∧
    (mergeArgsFileArgs (gs "f") fsysC8 [] [] [gs "p", gs "@f"] =
      ([(gs "b", gs "1"), (gs "x", gs "a1")],
       .ok (afC8, [gs "p", gs "cmd", gs "--flag=1"]))) ∧
    (run tenvC8 fsysC8 csC8 [] ⟨[], none⟩ [gs "p", gs "@f"] =
      ⟨.parseFailed (.notDefined (gs "flag")), [(gs "b", gs "1"), (gs "x", gs "a1")], 1⟩) ∧
    (unmarshalFlags tenvC8 [] 0 (.vstruct [.vstr []]) [gs "--flag=1"] =
      .ok ([], .vstruct [.vstr (gs "1")])) := by
  have henv : applyEnvEntries [] [gs "b=1", gs "x=a$b"] =
      .envOk [(gs "b", gs "1"), (gs "x", gs "a1")] := by
    simp [applyEnvEntries, splitN2, breakFirst, setEnv, expandEnv, expandGo, getShellName,
      isShellSpecialVar, isAlphaNumGo, lookupEnv, gs, List.find?, List.takeWhile]
  have hm : mergeArgsFileArgs (gs "f") fsysC8 [] [] [gs "p", gs "@f"] =
      ([(gs "b", gs "1"), (gs "x", gs "a1")],
       .ok (afC8, [gs "p", gs "cmd", gs "--flag=1"])) := by
    have hexp : expandEnv [(gs "b", gs "1"), (gs "x", gs "a1")] (gs "--flag=$b") =
        gs "--flag=1" := by
      simp [expandEnv, expandGo, getShellName, isShellSpecialVar, isAlphaNumGo,
        lookupEnv, gs, List.find?, List.takeWhile]
    simp only [mergeArgsFileArgs, show fsysC8 (gs "f") = some afC8 from rfl]
    rw [show afC8.env = [gs "b=1", gs "x=a$b"] from rfl, henv]
    dsimp only
    rw [show afC8.args = [gs "--flag=$b"] from rfl]
    simp only [List.map_cons, List.map_nil, hexp]
    rfl
  refine ⟨henv, hm, ?_, ?_⟩
  · rw [run_eq_merge tenvC8 fsysC8 csC8 [] ⟨[], none⟩ [gs "p", gs "@f"] (by decide) ⟨rfl, rfl⟩]
    rw [show (toLowerStr ([gs "p", gs "@f"].getD (([] : List GoStr).length + 1) [])).tail
        = gs "f" from rfl]
    rw [show (⟨[], none⟩ : Ctx).parents = [] from rfl, hm]
    dsimp only
    rw [run_eq_dispatch tenvC8 fsysC8 csC8 [(gs "b", gs "1"), (gs "x", gs "a1")]
        ⟨[], some afC8⟩ [gs "p", gs "cmd", gs "--flag=1"] (by decide) (by simp)]
    have hcolV2 : collectStructFlagsV2 tenvC8 [(gs "b", gs "1"), (gs "x", gs "a1")]
        (tenvC8.length + 1) [] [] [] 0 (.vstruct [.vstr []]) [] = .ok [] := by
      simp [collectStructFlagsV2, collectFieldsV2, tenvC8, readFlagInfo, splitOnChar, gs,
        readPositionalArg]
    rw [show selectLoop (toLowerStr ([gs "p", gs "cmd", gs "--flag=1"].getD
          ((⟨[], some afC8⟩ : Ctx).parents.length + 1) [])) csC8 none
        = .leafSel ⟨0, gs "cmd", 0, .vstruct [.vstr []]⟩ from rfl]
    dsimp only
    rw [if_neg (show ¬ cmdLeafName (gs "cmd") = [] by decide)]
    rw [show positionalArgsOf (gs "cmd") = some [] from rfl]
    dsimp only
    simp only [unmarshalFlagsV2]
    rw [hcolV2]
    rfl
  · have hcol : collectStructFlags tenvC8 [] (tenvC8.length + 1) [] [] [] 0
        (.vstruct [.vstr []]) [] = .ok [⟨gs "flag", [], [], [0], .str []⟩] := by
      simp [collectStructFlags, collectFields, tenvC8, readFlagInfo, splitOnChar, gs,
        registerReg, readEnvStr, GoValue.fieldD, GoValue.asStr]
    simp only [unmarshalFlags]
    rw [hcol]
    rfl

/-- C9: positional binding consumes leftover tokens left to right — the
declared `[file] [rest...]` names are read off the raw command name, a
string positional consumes exactly one token, a variadic list positional
consumes all remaining tokens and ends binding with no remainder; for
tokens `a b c`, `file` is `a`, the variadic field `["b","c"]`, zero
tokens remain. -/
theorem C9_positional_binding :
    (positionalArgsOf (gs "cmd [file] [rest...]") = some [gs "file", gs "rest..."]) ∧
    (∀ (t : GoStr) (ts : List GoStr),
      fillPositionalArgs fldsC9 [gs "file", gs "rest..."]
          (.vstruct [.vstr [], .vslice []]) (t :: ts) =
        (.vstruct [.vstr t, .vslice ts], [])) ∧
    fillPositionalArgs fldsC9 [gs "file", gs "rest..."]
        (.vstruct [.vstr [], .vslice []]) [gs "a", gs "b", gs "c"] =
      (.vstruct [.vstr (gs "a"), .vslice [gs "b", gs "c"]], []) := by
  refine ⟨rfl, ?_, rfl⟩
  intro t ts
  cases ts with
  | nil => rfl
  | cons t2 ts2 => rfl

/-- C10: applying the environment entries of an argument file is not
total: any entry without `=` makes the one-element split result's second
index panic, and a dispatch expanding such a file panics instead of
returning an error. -/
theorem C10_env_entry_panic :
    (∀ (env : ProcEnv) (e : GoStr) (rest : List GoStr), '=' ∉ e →
      applyEnvEntries env (e :: rest) = .envPanic env) ∧
    run [] fsysC10 [] [] ⟨[], none⟩ [gs "p", gs "@f"] = ⟨.panicked, [], 0⟩ := by
  constructor
  · intro env e rest he
    have hb : breakFirst '=' e = (e, none) := breakFirst_none '=' e he
    simp [applyEnvEntries, splitN2, hb]
  · rw [run_eq_merge [] fsysC10 [] [] ⟨[], none⟩ [gs "p", gs "@f"] (by decide) ⟨rfl, rfl⟩]
    rfl

/-- C10 witness: the panic conjunct applied to the concrete entry `FOO`. -/
theorem C10_env_entry_panic_witness :
    applyEnvEntries [] [gs "FOO"] = .envPanic [] :=
  C10_env_entry_panic.1 [] (gs "FOO") [] (by decide)
